import Mathlib

/-!
# strong_type: a shallow embedding of `include/strong_type/strong_type.hpp`

The header defines one class template, `strong::type<T, Tag, M...>`, holding a single
data member `val` of the underlying type `T`, and a catalogue of modifiers `M` whose
friend operators are all written in terms of `value_of`.

Conventions of the embedding

* A C++ object is its value.  A function taking `T&` and returning `T&` (the compound
  operators, the pre-increment) becomes a function returning the new value of the
  object it mutates; the returned reference denotes that same object.
* Mutable access `T& value_of() &` is a `ref`: the value read, and the object obtained
  by storing through the reference.
* The operators that the templates require of the underlying type are classes
  (`has_equality`, `has_ordering`, `has_add_assign`, ...), one per operator family the
  code invokes.  For types that carry the usual Lean structure the instances follow
  the language rules for built-in types (`x != y` is `!(x == y)`, `x > y` is `y < x`,
  `x += y` stores `x + y`, `++x` stores `x + 1`).
* Operations whose behaviour C++ leaves undefined outside a domain (dereferencing,
  unchecked subscripting) return `Option`, with `none` outside the domain; a throwing
  operation (`at`) returns `Except`.
* The 32-bit integer `int32_t` is a bit pattern with arithmetic modulo `2^32`; signed
  overflow, undefined in C++, is modelled as wrap-around.
* A call that is ill-formed for its argument (a by-value parameter of a type that
  cannot be copied, a wrapper for which the header declares no formatter or no hash)
  is `none`.
* Where the identity of objects matters, objects live in a store, a list indexed by
  address; a reference is an address.
-/

namespace strong

/-! ## Modifiers and the wrapper -/

/-- Names of the modifiers of the catalogue, with their template arguments
(`none` is the default argument `void`). -/
inductive capability : Type 1 where
  | default_constructible
  | equality
  | equality_with (Ts : List Type)
  | ordered_with (Ts : List Type)
  | semiregular
  | regular
  | unique
  | ordered
  | ostreamable
  | istreamable
  | iostreamable
  | incrementable
  | decrementable
  | bicrementable
  | boolean
  | hashable
  | difference
  | affine_point (D : Option Type)
  | pointer
  | arithmetic
  | bitarithmetic
  | indexed (I : Option Type)
  | iterator
  | range
  | convertible_to (Ts : List Type)
  | implicitly_convertible_to (Ts : List Type)
  | formattable

/-- The class template `strong::type<T, Tag, M...>` (lines 99-162): one private data
member `val`; `Tag` and the modifier list `M` only distinguish types. -/
structure type (T : Type) (Tag : Type) (M : List capability) where
  val : T

/-- A mutable reference to a `T` stored inside an object of type `S`: the value it
reads, and the object that results from assigning through it. -/
structure ref (S T : Type) where
  get : T
  set : T → S

/-- Construction of a `T` from an argument of type `U`
(`std::is_constructible<T, U>`). -/
class constructible (T : Type) (U : Type) where
  construct : U → T

/-- Copy or move construction: `T` from a `T`. -/
instance constructible_self {T : Type} : constructible T T := ⟨fun v => v⟩

namespace type

variable {T Tag : Type} {M : List capability}

/-- The explicit forwarding constructor `type(U&&... u) : val(std::forward<U>(u)...)`
(lines 128-136). -/
def ctor {U : Type} [constructible T U] (u : U) : type T Tag M :=
  { val := constructible.construct u }

/-- The member `const T& value_of() const &` (line 150). -/
def value_of (self : type T Tag M) : T := self.val

/-- The member `T& value_of() &` (line 148). -/
def value_of_mut (self : type T Tag M) : ref (type T Tag M) T :=
  { get := self.val, set := fun v => { self with val := v } }

/-- The member `T&& value_of() &&` (line 152): the value moved out. -/
def value_of_move (self : type T Tag M) : T := self.val

/-- The modifier list of the wrapper type of a value. -/
def modifiers (_self : type T Tag M) : List capability := M

end type

section free_functions

variable {T Tag : Type} {M : List capability}

/-- The friend `const T& value_of(const type& t)` (line 157). -/
def value_of (t : type T Tag M) : T := t.val

/-- The friend `T& value_of(type& t)` (line 155). -/
def value_of_mut (t : type T Tag M) : ref (type T Tag M) T :=
  { get := t.val, set := fun v => { t with val := v } }

/-- The friend `T&& value_of(type&& t)` (line 159). -/
def value_of_move (t : type T Tag M) : T := t.val

/-- The friend `swap(type& a, type& b)` (lines 138-145): `swap(a.val, b.val)`;
the result is the new pair of objects. -/
def swap (a b : type T Tag M) : type T Tag M × type T Tag M :=
  ({ a with val := b.val }, { b with val := a.val })

end free_functions

/-- The wrapper is constructible from whatever its underlying type is constructible
from, through its explicit constructor. -/
instance constructible_type {T Tag U : Type} {M : List capability} [constructible T U] :
    constructible (type T Tag M) U := ⟨fun u => type.ctor u⟩

/-- The traits `is_strong_type` / `underlying_type_t` together with `impl::access`
(lines 164-222): `J` is the underlying type of `I` and `access` reaches it. -/
class underlying_type (I : Type) (J : outParam Type) where
  access : I → J

/-- The overload of `impl::access` for `WhenNotStrongType` (lines 200-208): the
argument itself. -/
instance (priority := low) underlying_type_raw {I : Type} : underlying_type I I :=
  ⟨fun t => t⟩

/-- The overload of `impl::access` for `WhenStrongType` (lines 209-220):
`value_of(t)`. -/
instance underlying_type_strong {T Tag : Type} {M : List capability} :
    underlying_type (type T Tag M) T := ⟨fun t => value_of t⟩

/-- The function `impl::access`. -/
def impl.access {I J : Type} [underlying_type I J] (t : I) : J := underlying_type.access t

/-! ## Operators required of the underlying type -/

/-- The operators `==` and `!=` between a `T` and an `O`. -/
class has_equality (T O : Type) where
  eq : T → O → Bool
  ne : T → O → Bool

/-- The operators `<`, `<=`, `>`, `>=` between a `T` and an `O`. -/
class has_ordering (T O : Type) where
  lt : T → O → Bool
  le : T → O → Bool
  gt : T → O → Bool
  ge : T → O → Bool

/-- The operator `++x`: the value stored in `x` afterwards. -/
class has_increment (T : Type) where
  inc : T → T

/-- The operator `--x`: the value stored in `x` afterwards. -/
class has_decrement (T : Type) where
  dec : T → T

/-- The operator `x += y`: the value stored in `x` afterwards. -/
class has_add_assign (T O : Type) where
  add_assign : T → O → T

/-- The operator `x -= y`: the value stored in `x` afterwards. -/
class has_sub_assign (T O : Type) where
  sub_assign : T → O → T

/-- The operator `x *= y`: the value stored in `x` afterwards. -/
class has_mul_assign (T O : Type) where
  mul_assign : T → O → T

/-- The operator `x /= y`: the value stored in `x` afterwards. -/
class has_div_assign (T O : Type) where
  div_assign : T → O → T

/-- The binary `x - y` of the underlying type, of type
`decltype(std::declval<const T&>() - std::declval<const T&>())`. -/
class has_subtract (T : Type) (B : outParam Type) where
  sub : T → T → B

/-- Unary `-x` of the underlying type. -/
class has_negate (T : Type) where
  neg : T → T

/-- The operator `*p` of a pointer-like type; `none` where dereferencing is undefined. -/
class has_dereference (P : Type) (R : outParam Type) where
  deref : P → Option R

/-- The operator `c[j]` of a container; the result type is the container's own. -/
class has_subscript (C J : Type) (R : outParam Type) where
  subscript : C → J → R

/-- The bounds-checked `c.at(j)` of a container, failing with an exception `E`. -/
class has_at (C J : Type) (E R : outParam Type) where
  at_ : C → J → Except E R

/-- The members `begin()` and `end()` of a range, with iterator type `It`. -/
class has_begin_end (C : Type) (It : outParam Type) where
  begin : C → It
  end_ : C → It

/-! ### Built-in behaviour for types with the usual structure -/

/-- Built-in comparison: `x != y` is the negation of `x == y`. -/
instance has_equality_builtin {T : Type} [DecidableEq T] : has_equality T T where
  eq x y := decide (x = y)
  ne x y := decide (x ≠ y)

/-- Built-in relational operators of a totally ordered type. -/
instance has_ordering_builtin {T : Type} [LinearOrder T] : has_ordering T T where
  lt x y := decide (x < y)
  le x y := decide (x ≤ y)
  gt x y := decide (x > y)
  ge x y := decide (x ≥ y)

/-- Built-in `++x`: stores `x + 1`. -/
instance has_increment_builtin {T : Type} [Add T] [One T] : has_increment T where
  inc x := x + 1

/-- Built-in `--x`: stores `x - 1`. -/
instance has_decrement_builtin {T : Type} [Sub T] [One T] : has_decrement T where
  dec x := x - 1

/-- Built-in `x += y`: stores `x + y`. -/
instance has_add_assign_builtin {T O : Type} [HAdd T O T] : has_add_assign T O where
  add_assign x y := x + y

/-- Built-in `x -= y`: stores `x - y`. -/
instance has_sub_assign_builtin {T O : Type} [HSub T O T] : has_sub_assign T O where
  sub_assign x y := x - y

/-- Built-in `x *= y`: stores `x * y`. -/
instance has_mul_assign_builtin {T O : Type} [HMul T O T] : has_mul_assign T O where
  mul_assign x y := x * y

/-- Built-in `x /= y`: stores `x / y`, for the division that `T` carries. -/
instance has_div_assign_builtin {T O : Type} [HDiv T O T] : has_div_assign T O where
  div_assign x y := x / y

/-- Built-in binary minus. -/
instance has_subtract_builtin {T : Type} [Sub T] : has_subtract T T where
  sub x y := x - y

/-- Built-in unary minus. -/
instance has_negate_builtin {T : Type} [Neg T] : has_negate T where
  neg x := -x

/-! ## `equality` (lines 223-260) -/

namespace equality

variable {T Tag : Type} {M : List capability}

/-- The friend `operator==(const type& lh, const type& rh)`:
`value_of(lh) == value_of(rh)`. -/
def operator_eq [has_equality T T] (lh rh : type T Tag M) : Bool :=
  has_equality.eq (value_of lh) (value_of rh)

/-- The friend `operator!=(const type& lh, const type& rh)`:
`value_of(lh) != value_of(rh)`. -/
def operator_ne [has_equality T T] (lh rh : type T Tag M) : Bool :=
  has_equality.ne (value_of lh) (value_of rh)

end equality

/-! ## `ordered` (lines 495-559) -/

namespace ordered

variable {T Tag : Type} {M : List capability}

/-- The friend `operator<`: `value_of(lh) < value_of(rh)`. -/
def operator_lt [has_ordering T T] (lh rh : type T Tag M) : Bool :=
  has_ordering.lt (value_of lh) (value_of rh)

/-- The friend `operator<=`: `value_of(lh) <= value_of(rh)`. -/
def operator_le [has_ordering T T] (lh rh : type T Tag M) : Bool :=
  has_ordering.le (value_of lh) (value_of rh)

/-- The friend `operator>`: `value_of(lh) > value_of(rh)`. -/
def operator_gt [has_ordering T T] (lh rh : type T Tag M) : Bool :=
  has_ordering.gt (value_of lh) (value_of rh)

/-- The friend `operator>=`: `value_of(lh) >= value_of(rh)`. -/
def operator_ge [has_ordering T T] (lh rh : type T Tag M) : Bool :=
  has_ordering.ge (value_of lh) (value_of rh)

end ordered

/-! ## `incrementable`, `decrementable` (lines 608-662) -/

namespace incrementable

variable {T Tag : Type} {M : List capability}

/-- The friend `T& operator++(T& t)`: `++value_of(t); return t;`.
The result is `t` after the call. -/
def operator_pre_inc [has_increment T] (t : type T Tag M) : type T Tag M :=
  let r := value_of_mut t
  let t := r.set (has_increment.inc r.get)
  t

/-- The friend `T operator++(T& t, int)`: `auto copy = t; ++t; return copy;`.
The result is the returned value paired with `t` after the call. -/
def operator_post_inc [has_increment T] (t : type T Tag M) :
    type T Tag M × type T Tag M :=
  let copy := t
  let t := operator_pre_inc t
  (copy, t)

end incrementable

namespace decrementable

variable {T Tag : Type} {M : List capability}

/-- The friend `T& operator--(T& t)`: `--value_of(t); return t;`. -/
def operator_pre_dec [has_decrement T] (t : type T Tag M) : type T Tag M :=
  let r := value_of_mut t
  let t := r.set (has_decrement.dec r.get)
  t

/-- The friend `T operator--(T& t, int)`: `auto copy = t; --t; return copy;`. -/
def operator_post_dec [has_decrement T] (t : type T Tag M) :
    type T Tag M × type T Tag M :=
  let copy := t
  let t := operator_pre_dec t
  (copy, t)

end decrementable

/-! ## `difference` (lines 695-819) -/

namespace difference

variable {T Tag : Type} {M : List capability}

/-- The friend `type& operator+=(type& lh, const type& rh)`:
`value_of(lh) += value_of(rh); return lh;`. -/
def operator_add_assign [has_add_assign T T] (lh rh : type T Tag M) : type T Tag M :=
  let r := value_of_mut lh
  r.set (has_add_assign.add_assign r.get (value_of rh))

/-- The friend `type& operator-=(type& lh, const type& rh)`:
`value_of(lh) -= value_of(rh); return lh;`. -/
def operator_sub_assign [has_sub_assign T T] (lh rh : type T Tag M) : type T Tag M :=
  let r := value_of_mut lh
  r.set (has_sub_assign.sub_assign r.get (value_of rh))

/-- The friend `type& operator*=(type& lh, const T& rh)`:
`value_of(lh) *= rh; return lh;`. -/
def operator_mul_assign [has_mul_assign T T] (lh : type T Tag M) (rh : T) : type T Tag M :=
  let r := value_of_mut lh
  r.set (has_mul_assign.mul_assign r.get rh)

/-- The friend `type& operator/=(type& lh, const T& rh)`:
`value_of(lh) /= rh; return lh;`. -/
def operator_div_assign [has_div_assign T T] (lh : type T Tag M) (rh : T) : type T Tag M :=
  let r := value_of_mut lh
  r.set (has_div_assign.div_assign r.get rh)

/-- The friend `type operator+(type lh, const type& rh)`: `lh += rh; return lh;`. -/
def operator_add [has_add_assign T T] (lh rh : type T Tag M) : type T Tag M :=
  let lh := operator_add_assign lh rh
  lh

/-- The friend `type operator-(type lh, const type& rh)`: `lh -= rh; return lh;`. -/
def operator_sub [has_sub_assign T T] (lh rh : type T Tag M) : type T Tag M :=
  let lh := operator_sub_assign lh rh
  lh

/-- The friend `type operator*(type lh, const T& rh)`: `lh *= rh; return lh;`. -/
def operator_mul [has_mul_assign T T] (lh : type T Tag M) (rh : T) : type T Tag M :=
  let lh := operator_mul_assign lh rh
  lh

/-- The friend `type operator*(const T& lh, type rh)`: `rh *= lh; return rh;`. -/
def operator_mul_scalar_first [has_mul_assign T T] (lh : T) (rh : type T Tag M) :
    type T Tag M :=
  let rh := operator_mul_assign rh lh
  rh

/-- The friend `type operator/(type lh, const T& rh)`: `lh /= rh; return lh;`. -/
def operator_div [has_div_assign T T] (lh : type T Tag M) (rh : T) : type T Tag M :=
  let lh := operator_div_assign lh rh
  lh

end difference

/-! ## `affine_point<D>` (lines 821-919) -/

namespace affine_point

variable {T Tag : Type} {M : List capability}

/-- The member type `difference` for the default `D = void` (line 850):
`strong::type<base_diff_type, Tag, strong::difference>`. -/
abbrev default_difference (B Tag : Type) : Type := type B Tag [capability.difference]

/-- The member type `difference` (line 850):
`std::conditional_t<std::is_same<D, void>{}, strong::type<base_diff_type, Tag,
strong::difference>, D>`. -/
def difference_type (D : Option Type) (B Tag : Type) : Type :=
  match D with
  | none => default_difference B Tag
  | some D => D

/-- The friend `difference operator-(const type& lh, const type& rh)`:
`difference(value_of(lh) - value_of(rh))`, for the difference type `Dw`. -/
def operator_sub (Dw : Type) {B : Type} [has_subtract T B] [constructible Dw B]
    (lh rh : type T Tag M) : Dw :=
  constructible.construct (has_subtract.sub (value_of lh) (value_of rh))

/-- The friend `type& operator+=(type& lh, const difference& d)`:
`value_of(lh) += impl::access(d); return lh;`. -/
def operator_add_assign {Dw D : Type} [underlying_type Dw D] [has_add_assign T D]
    (lh : type T Tag M) (d : Dw) : type T Tag M :=
  let r := value_of_mut lh
  r.set (has_add_assign.add_assign r.get (impl.access d))

/-- The friend `type& operator-=(type& lh, const difference& d)`:
`value_of(lh) -= impl::access(d); return lh;`. -/
def operator_sub_assign {Dw D : Type} [underlying_type Dw D] [has_sub_assign T D]
    (lh : type T Tag M) (d : Dw) : type T Tag M :=
  let r := value_of_mut lh
  r.set (has_sub_assign.sub_assign r.get (impl.access d))

/-- The friend `type operator+(type lh, const difference& d)`: `return lh += d;`. -/
def operator_add {Dw D : Type} [underlying_type Dw D] [has_add_assign T D]
    (lh : type T Tag M) (d : Dw) : type T Tag M :=
  operator_add_assign lh d

/-- The friend `type operator+(const difference& d, type rh)`: `return rh += d;`. -/
def operator_add_difference_first {Dw D : Type} [underlying_type Dw D] [has_add_assign T D]
    (d : Dw) (rh : type T Tag M) : type T Tag M :=
  operator_add_assign rh d

/-- The friend `type operator-(type lh, const difference& d)`: `return lh -= d;`. -/
def operator_sub_difference {Dw D : Type} [underlying_type Dw D] [has_sub_assign T D]
    (lh : type T Tag M) (d : Dw) : type T Tag M :=
  operator_sub_assign lh d

end affine_point

/-! ## `arithmetic` (lines 1004-1143) -/

namespace arithmetic

variable {T Tag : Type} {M : List capability}

/-- The friend unary `T operator-(const T& lh)`: `T{-value_of(lh)}`. -/
def operator_neg [has_negate T] (lh : type T Tag M) : type T Tag M :=
  type.ctor (has_negate.neg (value_of lh))

/-- The friend `T& operator+=(T& lh, const T& rh)`:
`value_of(lh) += value_of(rh); return lh;`. -/
def operator_add_assign [has_add_assign T T] (lh rh : type T Tag M) : type T Tag M :=
  let r := value_of_mut lh
  r.set (has_add_assign.add_assign r.get (value_of rh))

/-- The friend `T& operator-=(T& lh, const T& rh)`:
`value_of(lh) -= value_of(rh); return lh;`. -/
def operator_sub_assign [has_sub_assign T T] (lh rh : type T Tag M) : type T Tag M :=
  let r := value_of_mut lh
  r.set (has_sub_assign.sub_assign r.get (value_of rh))

/-- The friend `T& operator*=(T& lh, const T& rh)`:
`value_of(lh) *= value_of(rh); return lh;`. -/
def operator_mul_assign [has_mul_assign T T] (lh rh : type T Tag M) : type T Tag M :=
  let r := value_of_mut lh
  r.set (has_mul_assign.mul_assign r.get (value_of rh))

/-- The friend `T& operator/=(T& lh, const T& rh)`:
`value_of(lh) /= value_of(rh); return lh;`. -/
def operator_div_assign [has_div_assign T T] (lh rh : type T Tag M) : type T Tag M :=
  let r := value_of_mut lh
  r.set (has_div_assign.div_assign r.get (value_of rh))

/-- The friend `T operator+(T lh, const T& rh)`: `lh += rh; return lh;`. -/
def operator_add [has_add_assign T T] (lh rh : type T Tag M) : type T Tag M :=
  let lh := operator_add_assign lh rh
  lh

/-- The friend `T operator-(T lh, const T& rh)`: `lh -= rh; return lh;`. -/
def operator_sub [has_sub_assign T T] (lh rh : type T Tag M) : type T Tag M :=
  let lh := operator_sub_assign lh rh
  lh

/-- The friend `T operator*(T lh, const T& rh)`: `lh *= rh; return lh;`. -/
def operator_mul [has_mul_assign T T] (lh rh : type T Tag M) : type T Tag M :=
  let lh := operator_mul_assign lh rh
  lh

/-- The friend `T operator/(T lh, const T& rh)`: `lh /= rh; return lh;`. -/
def operator_div [has_div_assign T T] (lh rh : type T Tag M) : type T Tag M :=
  let lh := operator_div_assign lh rh
  lh

end arithmetic

/-! ## `pointer` (lines 922-1002): dereference -/

namespace pointer

variable {T Tag : Type} {M : List capability}

/-- The member `operator*() const`: `*value_of(self)`. -/
def operator_deref {R : Type} [has_dereference T R] (self : type T Tag M) : Option R :=
  has_dereference.deref (value_of self)

end pointer

/-! ## `indexed<void>` (lines 1296-1377) -/

namespace indexed_void

variable {T Tag : Type} {M : List capability}

/-- The member `operator[](const I& i) const &`: `value_of(self)[impl::access(i)]`. -/
def operator_index {I J R : Type} [underlying_type I J] [has_subscript T J R]
    (self : type T Tag M) (i : I) : R :=
  has_subscript.subscript (value_of self) (impl.access i)

/-- The member `operator[](const I& i) &`: `value_of(self)[impl::access(i)]`. -/
def operator_index_mut {I J R : Type} [underlying_type I J] [has_subscript T J R]
    (self : type T Tag M) (i : I) : R :=
  has_subscript.subscript (value_of_mut self).get (impl.access i)

/-- The member `operator[](const I& i) &&`:
`value_of(std::move(self))[impl::access(i)]`. -/
def operator_index_move {I J R : Type} [underlying_type I J] [has_subscript T J R]
    (self : type T Tag M) (i : I) : R :=
  has_subscript.subscript (value_of_move self) (impl.access i)

/-- The member `at(const I& i) const &`: `value_of(self).at(impl::access(i))`. -/
def at_ {I J E R : Type} [underlying_type I J] [has_at T J E R]
    (self : type T Tag M) (i : I) : Except E R :=
  has_at.at_ (value_of self) (impl.access i)

/-- The member `at(const I& i) &`: `value_of(self).at(impl::access(i))`. -/
def at_mut {I J E R : Type} [underlying_type I J] [has_at T J E R]
    (self : type T Tag M) (i : I) : Except E R :=
  has_at.at_ (value_of_mut self).get (impl.access i)

/-- The member `at(const I& i) &&`: `value_of(std::move(self)).at(impl::access(i))`. -/
def at_move {I J E R : Type} [underlying_type I J] [has_at T J E R]
    (self : type T Tag M) (i : I) : Except E R :=
  has_at.at_ (value_of_move self) (impl.access i)

end indexed_void

/-! ## `indexed<I>` (lines 1379-1456) -/

namespace indexed

variable {T Tag : Type} {M : List capability}

/-- The member `operator[](const I& i) const &` for the fixed index type `I`. -/
def operator_index (I : Type) {J R : Type} [underlying_type I J] [has_subscript T J R]
    (self : type T Tag M) (i : I) : R :=
  has_subscript.subscript (value_of self) (impl.access i)

/-- The member `operator[](const I& i) &` for the fixed index type `I`. -/
def operator_index_mut (I : Type) {J R : Type} [underlying_type I J] [has_subscript T J R]
    (self : type T Tag M) (i : I) : R :=
  has_subscript.subscript (value_of_mut self).get (impl.access i)

/-- The member `operator[](const I& i) &&` for the fixed index type `I`. -/
def operator_index_move (I : Type) {J R : Type} [underlying_type I J] [has_subscript T J R]
    (self : type T Tag M) (i : I) : R :=
  has_subscript.subscript (value_of_move self) (impl.access i)

/-- The member `at(const I& i) const &` for the fixed index type `I`. -/
def at_ (I : Type) {J E R : Type} [underlying_type I J] [has_at T J E R]
    (self : type T Tag M) (i : I) : Except E R :=
  has_at.at_ (value_of self) (impl.access i)

/-- The member `at(const I& i) &` for the fixed index type `I`. -/
def at_mut (I : Type) {J E R : Type} [underlying_type I J] [has_at T J E R]
    (self : type T Tag M) (i : I) : Except E R :=
  has_at.at_ (value_of_mut self).get (impl.access i)

/-- The member `at(const I& i) &&` for the fixed index type `I`. -/
def at_move (I : Type) {J E R : Type} [underlying_type I J] [has_at T J E R]
    (self : type T Tag M) (i : I) : Except E R :=
  has_at.at_ (value_of_move self) (impl.access i)

end indexed

/-! ## `iterator` (lines 1458-1489) -/

/-- The tags of `std::iterator_traits<...>::iterator_category`. -/
inductive iterator_category where
  | input
  | output
  | forward
  | bidirectional
  | random_access
deriving DecidableEq

namespace iterator

/-- The bases of the primary template `iterator::modifier<I, category>` (lines
1461-1466): `pointer`, `equality`, `incrementable`. -/
def primary_modifier : List capability :=
  [capability.pointer, capability.equality, capability.incrementable]

/-- The base modifiers of `iterator::modifier<I, category>`: the primary template is
used for every category without a specialisation; the specialisation for
`bidirectional_iterator_tag` adds `decrementable` to the forward one; the one for
`random_access_iterator_tag` adds `affine_point<difference_type>`, `indexed<>` and
`ordered` to the bidirectional one. -/
def modifier (difference_type : Type) : iterator_category → List capability
  | iterator_category.bidirectional => primary_modifier ++ [capability.decrementable]
  | iterator_category.random_access =>
      (primary_modifier ++ [capability.decrementable]) ++
        [capability.affine_point (some difference_type), capability.indexed none,
          capability.ordered]
  | _ => primary_modifier

end iterator

/-! ## `range` (lines 1491-1559) -/

/-- The members `begin() const` and `end() const` of a range, with iterator type
`CIt`. -/
class has_const_begin_end (C : Type) (CIt : outParam Type) where
  begin : C → CIt
  end_ : C → CIt

namespace range

variable {T Tag : Type} {M : List capability}

/-- The member type `iterator`: `strong::type<r_iterator, Tag, strong::iterator>`. -/
abbrev iterator (It Tag : Type) : Type := type It Tag [capability.iterator]

/-- The member type `const_iterator`:
`strong::type<r_const_iterator, Tag, strong::iterator>`. -/
abbrev const_iterator (CIt Tag : Type) : Type := type CIt Tag [capability.iterator]

/-- The member `iterator begin()`: `iterator{value_of(self).begin()}`. -/
def begin {It : Type} [has_begin_end T It] (self : type T Tag M) : iterator It Tag :=
  type.ctor (has_begin_end.begin (value_of_mut self).get)

/-- The member `iterator end()`: `iterator{value_of(self).end()}`. -/
def end_ {It : Type} [has_begin_end T It] (self : type T Tag M) : iterator It Tag :=
  type.ctor (has_begin_end.end_ (value_of_mut self).get)

/-- The member `const_iterator cbegin() const`:
`const_iterator{value_of(self).begin()}`. -/
def cbegin {CIt : Type} [has_const_begin_end T CIt] (self : type T Tag M) :
    const_iterator CIt Tag :=
  type.ctor (has_const_begin_end.begin (value_of self))

/-- The member `const_iterator cend() const`: `const_iterator{value_of(self).end()}`. -/
def cend {CIt : Type} [has_const_begin_end T CIt] (self : type T Tag M) :
    const_iterator CIt Tag :=
  type.ctor (has_const_begin_end.end_ (value_of self))

/-- The member `const_iterator begin() const`:
`const_iterator{value_of(self).begin()}`. -/
def begin_const {CIt : Type} [has_const_begin_end T CIt] (self : type T Tag M) :
    const_iterator CIt Tag :=
  type.ctor (has_const_begin_end.begin (value_of self))

/-- The member `const_iterator end() const`: `const_iterator{value_of(self).end()}`. -/
def end_const {CIt : Type} [has_const_begin_end T CIt] (self : type T Tag M) :
    const_iterator CIt Tag :=
  type.ctor (has_const_begin_end.end_ (value_of self))

end range

/-- The loop `for (auto it = first; it != last; ++it) visit(*it);` over iterators with
the given `!=`, `++` and `*`: the values visited, in order; `none` when the fuel runs
out or a dereference is undefined. -/
def traverse {It R : Type} (ne : It → It → Bool) (inc : It → It) (deref : It → Option R) :
    Nat → It → It → Option (List R)
  | 0, _, _ => none
  | fuel + 1, it, last =>
      if ne it last then
        match deref it, traverse ne inc deref fuel (inc it) last with
        | some x, some xs => some (x :: xs)
        | _, _ => none
      else some []

/-- Whether a modifier declares the member type `difference`: only
`affine_point<D>::modifier` does (line 850), and so does `iterator::modifier` when
the category of the underlying iterator is random access, by inheriting it. -/
def capability.declares_difference (category : Option iterator_category) :
    capability → Bool
  | capability.affine_point _ => true
  | capability.iterator => decide (category = some iterator_category.random_access)
  | _ => false

/-- Whether `strong::type<T, Tag, M...>::difference` names a type, where `category`
is the iterator category of `T` if it has one. -/
def has_member_difference (category : Option iterator_category) (M : List capability) :
    Bool :=
  M.any (capability.declares_difference category)

end strong

/-! ## Underlying types used as instances -/

/-- A 32-bit two's-complement integer, given by its bit pattern; arithmetic wraps
modulo `2^32`. -/
structure int32_t where
  bits : Fin 4294967296
deriving DecidableEq

namespace int32_t

/-- The 32-bit integer congruent to `i`. -/
def ofInt (i : Int) : int32_t :=
  { bits := ⟨(i % 4294967296).toNat, by omega⟩ }

/-- The signed value of a bit pattern. -/
def toInt (x : int32_t) : Int :=
  if x.bits.val < 2147483648 then (x.bits.val : Int) else (x.bits.val : Int) - 4294967296

instance : Zero int32_t := ⟨{ bits := 0 }⟩

instance : One int32_t := ⟨{ bits := 1 }⟩

instance : Add int32_t := ⟨fun a b => { bits := a.bits + b.bits }⟩

instance : Sub int32_t := ⟨fun a b => { bits := a.bits - b.bits }⟩

instance : Neg int32_t := ⟨fun a => { bits := -a.bits }⟩

instance : Mul int32_t := ⟨fun a b => { bits := a.bits * b.bits }⟩

/-- Signed comparison. -/
instance : LinearOrder int32_t :=
  LinearOrder.lift' toInt (by
    intro a b h
    cases a with
    | mk x =>
      cases b with
      | mk y =>
        have hx := x.isLt
        have hy := y.isLt
        simp only [toInt] at h
        have : x.val = y.val := by split at h <;> split at h <;> omega
        exact congrArg int32_t.mk (Fin.ext this))

/-- Wrap-around addition makes the 32-bit integers a commutative group. -/
instance : AddCommGroup int32_t where
  add_assoc a b c := congrArg int32_t.mk (add_assoc a.bits b.bits c.bits)
  zero_add a := congrArg int32_t.mk (zero_add a.bits)
  add_zero a := congrArg int32_t.mk (add_zero a.bits)
  add_comm a b := congrArg int32_t.mk (add_comm a.bits b.bits)
  neg_add_cancel a := congrArg int32_t.mk (neg_add_cancel a.bits)
  sub_eq_add_neg a b := congrArg int32_t.mk (sub_eq_add_neg a.bits b.bits)
  nsmul := nsmulRec
  zsmul := zsmulRec

end int32_t

namespace std

/-- The exception `std::out_of_range`. -/
inductive out_of_range where
  | mk
deriving DecidableEq

/-- A dynamic array `std::vector<α>`: its elements in order. -/
structure vector (α : Type) where
  elems : List α

namespace vector

variable {α : Type}

/-- An iterator (`is_const = false`) or const iterator (`is_const = true`) of a
vector: the elements of the vector it points into, and its position. -/
structure basic_iterator (is_const : Bool) (α : Type) where
  elems : List α
  pos : Nat

/-- The member type `std::vector<α>::iterator`. -/
abbrev iterator (α : Type) : Type := basic_iterator false α

/-- The member type `std::vector<α>::const_iterator`. -/
abbrev const_iterator (α : Type) : Type := basic_iterator true α

/-- The member `size()`. -/
def size (v : vector α) : Nat := v.elems.length

/-- Unchecked `v[i]`: undefined (`none`) when `i` is out of range. -/
instance : strong.has_subscript (vector α) Nat (Option α) where
  subscript v i := v.elems[i]?

/-- Checked `v.at(i)`: throws `std::out_of_range` when `i >= size()`. -/
instance : strong.has_at (vector α) Nat out_of_range α where
  at_ v i := if h : i < v.elems.length then Except.ok (v.elems.get ⟨i, h⟩)
    else Except.error out_of_range.mk

instance : strong.has_begin_end (vector α) (iterator α) where
  begin v := { elems := v.elems, pos := 0 }
  end_ v := { elems := v.elems, pos := v.elems.length }

instance : strong.has_const_begin_end (vector α) (const_iterator α) where
  begin v := { elems := v.elems, pos := 0 }
  end_ v := { elems := v.elems, pos := v.elems.length }

/-- Iterators into one vector are equal when they are at the same position. -/
instance {c : Bool} : strong.has_equality (basic_iterator c α) (basic_iterator c α) where
  eq a b := decide (a.pos = b.pos)
  ne a b := decide (a.pos ≠ b.pos)

instance {c : Bool} : strong.has_increment (basic_iterator c α) where
  inc it := { it with pos := it.pos + 1 }

/-- Dereferencing is defined at the positions of elements only. -/
instance {c : Bool} : strong.has_dereference (basic_iterator c α) α where
  deref it := it.elems[it.pos]?

end vector

end std

/-! ## The example wrapper `Meters` -/

/-- The tag of `Meters`. -/
inductive Meters_ where

/-- The wrapper `strong::type<int32_t, Meters_, strong::ordered, strong::difference>`. -/
abbrev Meters : Type :=
  strong.type int32_t Meters_ [strong.capability.ordered, strong.capability.difference]

/-! ## Further modifiers -/

namespace strong

/-- Whether an object of the type can be copy-constructed
(`std::is_copy_constructible`): only then can a by-value parameter of the type be
initialised from an lvalue argument. -/
class copy_constructible (O : Type) where
  value : Bool

/-- Types are copyable unless stated otherwise. -/
instance (priority := low) copy_constructible_default {O : Type} : copy_constructible O :=
  ⟨true⟩

/-- Whether `unique::modifier`, whose copy constructor is deleted (lines 478-494), is
among the bases. -/
def is_unique (M : List capability) : Bool :=
  M.any fun c =>
    match c with
    | capability.unique => true
    | _ => false

/-- The implicit copy constructor of the wrapper: deleted with `unique`, otherwise
that of the data member. -/
instance copy_constructible_type {T Tag : Type} {M : List capability}
    [copy_constructible T] : copy_constructible (type T Tag M) :=
  ⟨!is_unique M && copy_constructible.value T⟩

/-! ### `equality_with<Ts...>`: `impl::typed_equality<T, Other>` (lines 262-316)

A call that is ill-formed for its argument is `none`. -/

namespace impl.typed_equality

variable {TT OT O Tag : Type} {M : List capability}

/-- The friend `operator==(const T& lh, const Other& rh)`:
`value_of(lh) == impl::access(rh)`. -/
def operator_eq [underlying_type O OT] [has_equality TT OT] (lh : type TT Tag M) (rh : O) :
    Bool :=
  has_equality.eq (value_of lh) (impl.access rh)

/-- The friend `operator==(const Other& lh, const T& rh)`:
`impl::access(lh) == value_of(rh)`. -/
def operator_eq_other_first [underlying_type O OT] [has_equality OT TT] (lh : O)
    (rh : type TT Tag M) : Bool :=
  has_equality.eq (impl.access lh) (value_of rh)

/-- The friend `operator!=(const T& lh, const Other rh)` (line 292), whose second
parameter is taken by value: `value_of(lh) != impl::access(rh)`, on a copy of the
argument. -/
def operator_ne [underlying_type O OT] [has_equality TT OT] [copy_constructible O]
    (lh : type TT Tag M) (rh : O) : Option Bool :=
  if copy_constructible.value O then
    let rh := rh
    some (has_equality.ne (value_of lh) (impl.access rh))
  else none

/-- The friend `operator!=(const Other& lh, const T& rh)`:
`impl::access(lh) != value_of(rh)`. -/
def operator_ne_other_first [underlying_type O OT] [has_equality OT TT] (lh : O)
    (rh : type TT Tag M) : Bool :=
  has_equality.ne (impl.access lh) (value_of rh)

end impl.typed_equality

/-! ### `ordered_with<Ts...>`: `impl::typed_ordering<T, Other>` (lines 318-412) -/

namespace impl.typed_ordering

variable {TT OT O Tag : Type} {M : List capability}

/-- The friend `operator<(const T& lh, const Other& rh)`:
`value_of(lh) < impl::access(rh)`. -/
def operator_lt [underlying_type O OT] [has_ordering TT OT] (lh : type TT Tag M) (rh : O) :
    Bool :=
  has_ordering.lt (value_of lh) (impl.access rh)

/-- The friend `operator<(const Other& lh, const T& rh)`:
`impl::access(lh) < value_of(rh)`. -/
def operator_lt_other_first [underlying_type O OT] [has_ordering OT TT] (lh : O)
    (rh : type TT Tag M) : Bool :=
  has_ordering.lt (impl.access lh) (value_of rh)

/-- The friend `operator<=(const T& lh, const Other& rh)`:
`value_of(lh) <= impl::access(rh)`. -/
def operator_le [underlying_type O OT] [has_ordering TT OT] (lh : type TT Tag M) (rh : O) :
    Bool :=
  has_ordering.le (value_of lh) (impl.access rh)

/-- The friend `operator<=(const Other& lh, const T& rh)`:
`impl::access(lh) <= value_of(rh)`. -/
def operator_le_other_first [underlying_type O OT] [has_ordering OT TT] (lh : O)
    (rh : type TT Tag M) : Bool :=
  has_ordering.le (impl.access lh) (value_of rh)

/-- The friend `operator>(const T& lh, const Other& rh)`:
`value_of(lh) > impl::access(rh)`. -/
def operator_gt [underlying_type O OT] [has_ordering TT OT] (lh : type TT Tag M) (rh : O) :
    Bool :=
  has_ordering.gt (value_of lh) (impl.access rh)

/-- The friend `operator>(const Other& lh, const T& rh)`:
`impl::access(lh) > value_of(rh)`. -/
def operator_gt_other_first [underlying_type O OT] [has_ordering OT TT] (lh : O)
    (rh : type TT Tag M) : Bool :=
  has_ordering.gt (impl.access lh) (value_of rh)

/-- The friend `operator>=(const T& lh, const Other& rh)`:
`value_of(lh) >= impl::access(rh)`. -/
def operator_ge [underlying_type O OT] [has_ordering TT OT] (lh : type TT Tag M) (rh : O) :
    Bool :=
  has_ordering.ge (value_of lh) (impl.access rh)

/-- The friend `operator>=(const Other& lh, const T& rh)`:
`impl::access(lh) >= value_of(rh)`. -/
def operator_ge_other_first [underlying_type O OT] [has_ordering OT TT] (lh : O)
    (rh : type TT Tag M) : Bool :=
  has_ordering.ge (impl.access lh) (value_of rh)

end impl.typed_ordering

/-! ### `difference`: the ratio of two values (lines 794-799) -/

/-- The binary `x / y` of the underlying type, converted to `T`. -/
class has_divide (T : Type) where
  div : T → T → T

/-- Built-in binary division, for the division that `T` carries. -/
instance has_divide_builtin {T : Type} [Div T] : has_divide T where
  div x y := x / y

/-- The friend `T operator/(const type& lh, const type& rh)` of `difference`:
`value_of(lh) / value_of(rh)`, a raw value of the underlying type. -/
def difference.operator_div_type {T Tag : Type} {M : List capability} [has_divide T]
    (lh rh : type T Tag M) : T :=
  has_divide.div (value_of lh) (value_of rh)

/-! ### `pointer`: comparison with `nullptr`, `operator->` (lines 928-1002) -/

/-- The operators `x == nullptr` and `x != nullptr` of a pointer-like type. -/
class has_null_comparison (P : Type) where
  eq_null : P → Bool
  ne_null : P → Bool

/-- The built-in `&r` applied to the result of a dereference: a pointer of type `A`. -/
class has_address_of (R : Type) (A : outParam Type) where
  address_of : R → A

namespace pointer

variable {T Tag : Type} {M : List capability}

/-- The friend `operator==(const type& t, std::nullptr_t)`: `value_of(t) == nullptr`. -/
def operator_eq_null [has_null_comparison T] (t : type T Tag M) : Bool :=
  has_null_comparison.eq_null (value_of t)

/-- The friend `operator==(std::nullptr_t, const type& t)`: `value_of(t) == nullptr`. -/
def operator_eq_null_first [has_null_comparison T] (t : type T Tag M) : Bool :=
  has_null_comparison.eq_null (value_of t)

/-- The friend `operator!=(const type& t, std::nullptr_t)`: `value_of(t) != nullptr`. -/
def operator_ne_null [has_null_comparison T] (t : type T Tag M) : Bool :=
  has_null_comparison.ne_null (value_of t)

/-- The friend `operator!=(std::nullptr_t, const type& t)`: `value_of(t) != nullptr`. -/
def operator_ne_null_first [has_null_comparison T] (t : type T Tag M) : Bool :=
  has_null_comparison.ne_null (value_of t)

/-- The member `operator->() const`: `&operator*()`. -/
def operator_arrow {R A : Type} [has_dereference T R] [has_address_of R A]
    (self : type T Tag M) : Option A :=
  (operator_deref self).map has_address_of.address_of

end pointer

/-! ### `hashable` and `std::hash<strong::type<T, Tag, M...>>` (lines 689-693, 1614-1637) -/

/-- The call operator of `std::hash<T>`. -/
class has_hash (T : Type) where
  hash : T → Nat

/-- Whether `hashable::modifier<type>` is a base of the wrapper: the condition
`std::is_base_of<hashable::modifier<type>, type>` of line 1618. -/
def is_hashable (M : List capability) : Bool :=
  M.any fun c =>
    match c with
    | capability.hashable => true
    | _ => false

end strong

namespace std

/-- The call operator of `std::hash<strong::type<T, Tag, M...>>` (lines 1628-1636):
`hash<T>::operator()(value_of(tt))`.  Its parameter is a
`const hashable::modifier<type>&`, so that a wrapper without `hashable` is no argument
for it (`none`). -/
def hash.operator_call {T Tag : Type} {M : List strong.capability} [strong.has_hash T]
    (t : strong.type T Tag M) : Option Nat :=
  if strong.is_hashable M then
    let tt := t
    some (strong.has_hash.hash (strong.value_of tt))
  else none

end std

/-! ### Pointers -/

/-- The object a dereference designates: where it is, and its value. -/
structure lvalue (R : Type) where
  address : Nat
  object : R

/-- A raw pointer `R*`: null, or the address of an object (given with the object it
points to). -/
inductive raw_pointer (R : Type) where
  | null
  | points_to (target : lvalue R)

namespace raw_pointer

variable {R : Type}

/-- Built-in comparison of a pointer with `nullptr`. -/
instance : strong.has_null_comparison (raw_pointer R) where
  eq_null p :=
    match p with
    | null => true
    | points_to _ => false
  ne_null p :=
    match p with
    | null => false
    | points_to _ => true

/-- Built-in `*p`: undefined for the null pointer. -/
instance : strong.has_dereference (raw_pointer R) (lvalue R) where
  deref p :=
    match p with
    | null => none
    | points_to target => some target

/-- Built-in `&r`: the pointer to the object. -/
instance : strong.has_address_of (lvalue R) (raw_pointer R) where
  address_of r := points_to r

end raw_pointer

/-! ### Streams and formatting (lines 561-579, 1603-1610, 1658-1719)

The section of the header for the fmt library is compiled when `STRONG_HAS_FMT_FORMAT`
is set; the macro `FMT_VERSION` of that library is a parameter. -/

namespace std

/-- An output stream `std::ostream`: the text written to it so far. -/
structure ostream where
  written : String

end std

namespace fmt

/-- A format context: the output produced so far. -/
structure format_context where
  out : String

/-- The member `format(v, fc)` of the formatter `fmt::formatter<T, Char>` of the
underlying type, for the replacement field `{}`: the context afterwards. -/
class has_formatter (T : Type) where
  format : T → format_context → format_context

/-- The member `format` of `fmt::ostream_formatter`: the text that `os << value`
writes to an empty stream, appended to the output. -/
def ostream_formatter.format {W : Type} (shl : std.ostream → W → std.ostream) (value : W)
    (fc : format_context) : format_context :=
  { out := fc.out ++ (shl { written := "" } value).written }

end fmt

namespace strong

/-- The operator `os << v` of the underlying type: the stream afterwards. -/
class has_ostream_insertion (T : Type) where
  insert : std.ostream → T → std.ostream

/-- The friend `operator<<(std::ostream& os, const T& t)` of `ostreamable::modifier`
(lines 567-574): `return os << value_of(t);`. -/
def ostreamable.operator_shl {T Tag : Type} {M : List capability}
    [has_ostream_insertion T] (os : std.ostream) (t : type T Tag M) : std.ostream :=
  has_ostream_insertion.insert os (value_of t)

/-- The trait `is_ostreamable<T>` (line 579),
`std::is_base_of<ostreamable::modifier<T>, T>`: `ostreamable::modifier<T>` is a base
through `ostreamable` and through `iostreamable`. -/
def is_ostreamable (M : List capability) : Bool :=
  M.any fun c =>
    match c with
    | capability.ostreamable => true
    | capability.iostreamable => true
    | _ => false

/-- The trait `is_formattable<T>` (line 1610),
`std::is_base_of<formattable::modifier<T>, T>`. -/
def is_formattable (M : List capability) : Bool :=
  M.any fun c =>
    match c with
    | capability.formattable => true
    | _ => false

/-- The member `format(const Type& t, FormatContext& fc)` of
`strong::formatter<type<T, Tag, M...>, Char>` (lines 1664-1675):
`fmt::formatter<T, Char>::format(value_of(t), fc)`. -/
def formatter.format {T Tag : Type} {M : List capability} [fmt.has_formatter T]
    (t : type T Tag M) (fc : fmt.format_context) : fmt.format_context :=
  fmt.has_formatter.format (value_of t) fc

/-- The classes `fmt::formatter<strong::type<T, Tag, M...>, Char>` can derive from. -/
inductive formatter_base where
  | strong_formatter
  | ostream_formatter
deriving DecidableEq

/-- The member `type` of `select_formatter<T, Char>` (lines 1679-1692):
`formatter<T, Char>` when `is_formattable<T>`, else `fmt::ostream_formatter`. -/
def select_formatter (M : List capability) : formatter_base :=
  if is_formattable M then formatter_base.strong_formatter
  else formatter_base.ostream_formatter

/-- The partial specialisations of `fmt::formatter` for `strong::type<T, Tag, M...>`
(lines 1696-1718): the base class of the one that applies, if any.  For
`FMT_VERSION >= 90000` it is enabled for `is_ostreamable || is_formattable` and derives
from `select_formatter<...>::type`; otherwise it is enabled for `is_formattable` and
derives from `strong::formatter<...>`. -/
def fmt_formatter (FMT_VERSION : Nat) (M : List capability) : Option formatter_base :=
  if 90000 ≤ FMT_VERSION then
    if is_ostreamable M || is_formattable M then some (select_formatter M) else none
  else
    if is_formattable M then some formatter_base.strong_formatter else none

end strong

namespace fmt

/-- The call `fmt::format("{}", val)` for a wrapper `val`, with the formatter the
header gives fmt for the wrapper type; `none` when the header gives it none (it
includes `<fmt/ostream.h>` for `FMT_VERSION >= 90000` only, lines 63-65). -/
def format (FMT_VERSION : Nat) {T Tag : Type} {M : List strong.capability}
    [has_formatter T] [strong.has_ostream_insertion T] (val : strong.type T Tag M) :
    Option String :=
  match strong.fmt_formatter FMT_VERSION M with
  | some strong.formatter_base.strong_formatter =>
      some (strong.formatter.format val { out := "" }).out
  | some strong.formatter_base.ostream_formatter =>
      some (ostream_formatter.format strong.ostreamable.operator_shl val { out := "" }).out
  | none => none

end fmt

/-! ### The types of `test_fmt.cpp` -/

/-- The test type `so`: `struct so { so(int v) : i(v) {} int i; ... }`. -/
structure so where
  i : Int

/-- The converting constructor `so(int v)`. -/
instance : strong.constructible so Int := ⟨fun v => { i := v }⟩

/-- The friend `operator<<(std::ostream& os, const so& obj)` of the test type:
`return os << "os << " << obj.i;`. -/
instance : strong.has_ostream_insertion so where
  insert os obj := { written := os.written ++ "os << " ++ toString obj.i }

/-- The specialisation `fmt::formatter<so, Char>` of the test: formats `t.i` as an
`int`. -/
instance : fmt.has_formatter so where
  format t fc := { out := fc.out ++ toString t.i }

/-- The tag of `osso`. -/
inductive osso_ where

/-- The tag of `fmtso`. -/
inductive fmtso_ where

/-- The tag of `fmtosso`. -/
inductive fmtf_ where

/-- The wrapper `strong::type<so, struct osso_, strong::ostreamable>`. -/
abbrev osso : Type := strong.type so osso_ [strong.capability.ostreamable]

/-- The wrapper `strong::type<so, struct fmtso_, strong::formattable>`. -/
abbrev fmtso : Type := strong.type so fmtso_ [strong.capability.formattable]

/-- The wrapper
`strong::type<so, struct fmtf_, strong::formattable, strong::ostreamable>`. -/
abbrev fmtosso : Type :=
  strong.type so fmtf_ [strong.capability.formattable, strong.capability.ostreamable]

/-! ### Objects in memory: the operators of `arithmetic` on references

A store lists the objects of one wrapper type; the address of an object is its
position.  A reference parameter is an address; a by-value parameter is a new object,
initialised with a copy of the argument and destroyed on return. -/

namespace strong.arithmetic

variable {T Tag : Type} {M : List capability}

/-- A compound operator `T& operator@=(T& lh, const T& rh)` of `arithmetic` (lines
1020-1066), for the operator `assign` (`x @= y`) of the underlying type:
`value_of(lh) @= value_of(rh); return lh;`.  The result is the store afterwards and
the reference returned; `none` when a reference designates no object. -/
def compound_at (assign : T → T → T) (σ : List (type T Tag M)) (lh rh : Nat) :
    Option (List (type T Tag M) × Nat) :=
  match σ[lh]?, σ[rh]? with
  | some x, some y =>
      let r := value_of_mut x
      some (σ.set lh (r.set (assign r.get (value_of y))), lh)
  | _, _ => none

/-- A binary operator `T operator@(T lh, const T& rh)` of `arithmetic` (lines
1081-1127): `lh @= rh; return lh;` on the by-value parameter `lh`.  The result is the
store of the caller afterwards and the value returned. -/
def binary_at (assign : T → T → T) (σ : List (type T Tag M)) (a b : Nat) :
    Option (List (type T Tag M) × type T Tag M) :=
  match σ[a]? with
  | none => none
  | some x =>
      let lh := σ.length
      match compound_at assign (σ ++ [x]) lh b with
      | none => none
      | some (σ', r) =>
          match σ'[r]? with
          | none => none
          | some result => some (σ'.take σ.length, result)

/-- The operator `a += b` on the objects at `lh` and `rh`. -/
def operator_add_assign_at [has_add_assign T T] (σ : List (type T Tag M)) (lh rh : Nat) :
    Option (List (type T Tag M) × Nat) :=
  compound_at has_add_assign.add_assign σ lh rh

/-- The operator `a -= b` on the objects at `lh` and `rh`. -/
def operator_sub_assign_at [has_sub_assign T T] (σ : List (type T Tag M)) (lh rh : Nat) :
    Option (List (type T Tag M) × Nat) :=
  compound_at has_sub_assign.sub_assign σ lh rh

/-- The operator `a *= b` on the objects at `lh` and `rh`. -/
def operator_mul_assign_at [has_mul_assign T T] (σ : List (type T Tag M)) (lh rh : Nat) :
    Option (List (type T Tag M) × Nat) :=
  compound_at has_mul_assign.mul_assign σ lh rh

/-- The operator `a /= b` on the objects at `lh` and `rh`. -/
def operator_div_assign_at [has_div_assign T T] (σ : List (type T Tag M)) (lh rh : Nat) :
    Option (List (type T Tag M) × Nat) :=
  compound_at has_div_assign.div_assign σ lh rh

/-- The operator `a + b` on the objects at `a` and `b`. -/
def operator_add_at [has_add_assign T T] (σ : List (type T Tag M)) (a b : Nat) :
    Option (List (type T Tag M) × type T Tag M) :=
  binary_at has_add_assign.add_assign σ a b

/-- The operator `a - b` on the objects at `a` and `b`. -/
def operator_sub_at [has_sub_assign T T] (σ : List (type T Tag M)) (a b : Nat) :
    Option (List (type T Tag M) × type T Tag M) :=
  binary_at has_sub_assign.sub_assign σ a b

/-- The operator `a * b` on the objects at `a` and `b`. -/
def operator_mul_at [has_mul_assign T T] (σ : List (type T Tag M)) (a b : Nat) :
    Option (List (type T Tag M) × type T Tag M) :=
  binary_at has_mul_assign.mul_assign σ a b

/-- The operator `a / b` on the objects at `a` and `b`. -/
def operator_div_at [has_div_assign T T] (σ : List (type T Tag M)) (a b : Nat) :
    Option (List (type T Tag M) × type T Tag M) :=
  binary_at has_div_assign.div_assign σ a b

/-- The unary `T operator-(const T& lh)` (lines 1010-1018) on the object at `a`:
`return T{-value_of(lh)};`. -/
def operator_neg_at [has_negate T] (σ : List (type T Tag M)) (a : Nat) :
    Option (List (type T Tag M) × type T Tag M) :=
  match σ[a]? with
  | none => none
  | some x => some (σ, operator_neg x)

end strong.arithmetic

/-! ### Further instances and example tags -/

/-- The hash `std::hash<int32_t>` of the common implementations: the value itself, as
an unsigned number. -/
instance : strong.has_hash int32_t where
  hash x := x.bits.val

/-- The tag of an example wrapper. -/
inductive tag_a where

/-- The tag of another example wrapper. -/
inductive tag_b where

/-- The modifier named, without its template arguments. -/
def strong.capability.without_arguments : strong.capability → strong.capability
  | strong.capability.equality_with _ => strong.capability.equality_with []
  | strong.capability.ordered_with _ => strong.capability.ordered_with []
  | strong.capability.affine_point _ => strong.capability.affine_point none
  | strong.capability.indexed _ => strong.capability.indexed none
  | strong.capability.convertible_to _ => strong.capability.convertible_to []
  | strong.capability.implicitly_convertible_to _ =>
      strong.capability.implicitly_convertible_to []
  | c => c

/-! ### An underlying type with a multiplication that does not commute -/

/-- The map `x ↦ scale * x + shift` on the integers; the product is composition,
`(f * g) x = f (g x)`. -/
structure affine_map where
  scale : Int
  shift : Int
deriving DecidableEq

/-- Composition of affine maps. -/
instance : Mul affine_map where
  mul f g := { scale := f.scale * g.scale, shift := f.scale * g.shift + f.shift }

/-! ## Theorems -/

namespace strong

/-- C1: a wrapper constructed from an underlying value `v` reads back as `v` through
every accessor: the members `value_of() const &`, `value_of() &`, `value_of() &&`
and the three friend functions `value_of`. -/
theorem value_of_ctor_round_trip {T Tag : Type} {M : List capability} (v : T) :
    (type.ctor v : type T Tag M).value_of = v ∧
    (type.ctor v : type T Tag M).value_of_mut.get = v ∧
    (type.ctor v : type T Tag M).value_of_move = v ∧
    value_of (type.ctor v : type T Tag M) = v ∧
    (value_of_mut (type.ctor v : type T Tag M)).get = v ∧
    value_of_move (type.ctor v : type T Tag M) = v :=
  ⟨rfl, rfl, rfl, rfl, rfl, rfl⟩

/-- C2: with `equality`, `a == b` is the underlying `==` of the two underlying values
and `a != b` is the underlying `!=`; for an underlying type with built-in comparison,
`a == b` holds iff the underlying values are equal and `a != b` holds iff they are
not. -/
theorem equality_operators_follow_underlying :
    (∀ (T Tag : Type) (M : List capability) [has_equality T T] (a b : type T Tag M),
      (equality.operator_eq a b = true ↔
        has_equality.eq (value_of a) (value_of b) = true) ∧
      (equality.operator_ne a b = true ↔
        has_equality.ne (value_of a) (value_of b) = true)) ∧
    (∀ (T Tag : Type) (M : List capability) [DecidableEq T] (a b : type T Tag M),
      (equality.operator_eq a b = true ↔ value_of a = value_of b) ∧
      (equality.operator_ne a b = true ↔ value_of a ≠ value_of b)) := by
  refine ⟨fun T Tag M _ a b => ⟨Iff.rfl, Iff.rfl⟩, fun T Tag M _ a b => ⟨?_, ?_⟩⟩
  · simp [equality.operator_eq, has_equality.eq]
  · simp [equality.operator_ne, has_equality.ne]

/-- C3: with `ordered`, each of `<`, `<=`, `>`, `>=` on wrappers is the same operator
of the underlying type applied to the underlying values; when the underlying type is
totally ordered the four are mutually consistent: `a > b` iff `b < a`, `a <= b` iff
not `b < a`, `a >= b` iff not `a < b`. -/
theorem ordered_operators_follow_underlying :
    (∀ (T Tag : Type) (M : List capability) [has_ordering T T] (a b : type T Tag M),
      ordered.operator_lt a b = has_ordering.lt (value_of a) (value_of b) ∧
      ordered.operator_le a b = has_ordering.le (value_of a) (value_of b) ∧
      ordered.operator_gt a b = has_ordering.gt (value_of a) (value_of b) ∧
      ordered.operator_ge a b = has_ordering.ge (value_of a) (value_of b)) ∧
    (∀ (T Tag : Type) (M : List capability) [LinearOrder T] (a b : type T Tag M),
      (ordered.operator_lt a b = true ↔ value_of a < value_of b) ∧
      (ordered.operator_le a b = true ↔ value_of a ≤ value_of b) ∧
      (ordered.operator_gt a b = true ↔ ordered.operator_lt b a = true) ∧
      (ordered.operator_le a b = true ↔ ¬ ordered.operator_lt b a = true) ∧
      (ordered.operator_ge a b = true ↔ ¬ ordered.operator_lt a b = true)) := by
  refine ⟨fun T Tag M _ a b => ⟨rfl, rfl, rfl, rfl⟩, fun T Tag M _ a b => ?_⟩
  simp [ordered.operator_lt, ordered.operator_le, ordered.operator_gt,
    ordered.operator_ge, has_ordering.lt, has_ordering.le, has_ordering.gt,
    has_ordering.ge]

/-- C4: with `arithmetic`, for each of `+ - * /` the binary operator returns what the
compound operator leaves in a copy of its left operand, and the underlying value of
the result is the underlying operation applied to the two underlying values. -/
theorem arithmetic_binary_is_copy_then_compound :
    (∀ (T Tag : Type) (M : List capability) [has_add_assign T T] [has_sub_assign T T]
        [has_mul_assign T T] [has_div_assign T T] (a b : type T Tag M),
      (arithmetic.operator_add a b = (let copy := a; arithmetic.operator_add_assign copy b) ∧
       arithmetic.operator_sub a b = (let copy := a; arithmetic.operator_sub_assign copy b) ∧
       arithmetic.operator_mul a b = (let copy := a; arithmetic.operator_mul_assign copy b) ∧
       arithmetic.operator_div a b = (let copy := a; arithmetic.operator_div_assign copy b)) ∧
      (value_of (arithmetic.operator_add a b) =
          has_add_assign.add_assign (value_of a) (value_of b) ∧
       value_of (arithmetic.operator_sub a b) =
          has_sub_assign.sub_assign (value_of a) (value_of b) ∧
       value_of (arithmetic.operator_mul a b) =
          has_mul_assign.mul_assign (value_of a) (value_of b) ∧
       value_of (arithmetic.operator_div a b) =
          has_div_assign.div_assign (value_of a) (value_of b))) ∧
    (∀ (T Tag : Type) (M : List capability) [Add T] [Sub T] [Mul T] [Div T]
        (a b : type T Tag M),
      value_of (arithmetic.operator_add a b) = value_of a + value_of b ∧
      value_of (arithmetic.operator_sub a b) = value_of a - value_of b ∧
      value_of (arithmetic.operator_mul a b) = value_of a * value_of b ∧
      value_of (arithmetic.operator_div a b) = value_of a / value_of b) :=
  ⟨fun _ _ _ _ _ _ _ _ _ => ⟨⟨rfl, rfl, rfl, rfl⟩, ⟨rfl, rfl, rfl, rfl⟩⟩,
    fun _ _ _ _ _ _ _ _ _ => ⟨rfl, rfl, rfl, rfl⟩⟩

/-- C5: with `incrementable`, `x++` returns the value `x` had before the call and
leaves in `x` what one `++x` leaves: the underlying value incremented once. -/
theorem post_increment_returns_old_and_increments_once :
    (∀ (T Tag : Type) (M : List capability) [has_increment T] (x : type T Tag M),
      (incrementable.operator_post_inc x).1 = x ∧
      (incrementable.operator_post_inc x).2 = incrementable.operator_pre_inc x ∧
      value_of (incrementable.operator_post_inc x).2 = has_increment.inc (value_of x)) ∧
    (∀ (T Tag : Type) (M : List capability) [Add T] [One T] (x : type T Tag M),
      value_of (incrementable.operator_post_inc x).2 = value_of x + 1) :=
  ⟨fun _ _ _ _ _ => ⟨rfl, rfl, rfl⟩, fun _ _ _ _ _ _ => rfl⟩

/-- C6: with `affine_point` over an integer underlying type (any commutative group
under addition, the wrap-around 32-bit integers included), `(p - q) + q == p` and the
underlying value of `p - p` is zero. -/
theorem affine_point_sub_add_cancel {T Tag : Type} {M : List capability}
    [AddCommGroup T] [DecidableEq T] (p q : type T Tag M) :
    equality.operator_eq
      (affine_point.operator_add_difference_first
        (affine_point.operator_sub (affine_point.default_difference T Tag) p q) q) p = true ∧
    value_of (affine_point.operator_sub (affine_point.default_difference T Tag) p p) = 0 := by
  constructor
  · simp [equality.operator_eq, has_equality.eq, affine_point.operator_add_difference_first,
      affine_point.operator_add_assign, affine_point.operator_sub, value_of, value_of_mut,
      impl.access, underlying_type.access, has_add_assign.add_assign, has_subtract.sub,
      constructible.construct, type.ctor]
  · simp [affine_point.operator_sub, value_of, has_subtract.sub, constructible.construct,
      type.ctor]

/-- C6 at the wrap-around 32-bit integers, for the points `2147483647` and `-1`,
whose difference wraps around. -/
theorem affine_point_sub_add_cancel_int32 :
    equality.operator_eq
      (affine_point.operator_add_difference_first
        (affine_point.operator_sub (affine_point.default_difference int32_t Unit)
          (type.ctor (int32_t.ofInt 2147483647) :
            type int32_t Unit [capability.affine_point none, capability.equality])
          (type.ctor (int32_t.ofInt (-1)) :
            type int32_t Unit [capability.affine_point none, capability.equality]))
        (type.ctor (int32_t.ofInt (-1)) :
          type int32_t Unit [capability.affine_point none, capability.equality]))
      (type.ctor (int32_t.ofInt 2147483647) :
        type int32_t Unit [capability.affine_point none, capability.equality]) = true ∧
    value_of (affine_point.operator_sub (affine_point.default_difference int32_t Unit)
      (type.ctor (int32_t.ofInt 2147483647) :
        type int32_t Unit [capability.affine_point none, capability.equality])
      (type.ctor (int32_t.ofInt 2147483647) :
        type int32_t Unit [capability.affine_point none, capability.equality])) = 0 :=
  affine_point_sub_add_cancel
    (type.ctor (int32_t.ofInt 2147483647) :
      type int32_t Unit [capability.affine_point none, capability.equality])
    (type.ctor (int32_t.ofInt (-1)) :
      type int32_t Unit [capability.affine_point none, capability.equality])

/-- The counterexample to C7 as stated: `Meters`, with the modifiers `ordered` and
`difference` only, has no member type `difference`; `a - b` is a value of the wrapper
type `Meters` itself, whose modifier list is not that of the difference type
`strong::type<int32_t, Meters_, strong::difference>` of an affine point. -/
theorem meters_has_no_difference_member :
    has_member_difference none
        (type.modifiers (difference.operator_sub
          (type.ctor (int32_t.ofInt 5) : Meters) (type.ctor (int32_t.ofInt 3) : Meters)))
      = false ∧
    type.modifiers (difference.operator_sub
        (type.ctor (int32_t.ofInt 5) : Meters) (type.ctor (int32_t.ofInt 3) : Meters))
      = [capability.ordered, capability.difference] ∧
    type.modifiers (difference.operator_sub
        (type.ctor (int32_t.ofInt 5) : Meters) (type.ctor (int32_t.ofInt 3) : Meters))
      ≠ type.modifiers
          (type.ctor (int32_t.ofInt 2) : affine_point.default_difference int32_t Meters_) := by
  refine ⟨rfl, rfl, ?_⟩
  simp [type.modifiers]

/-- C7, amended: for `a = Meters(5)` and `b = Meters(3)`, `a - b` is a `Meters` whose
raw value is 2 and `a > b` is true; in general, with `difference`, the underlying
value of `a - b` is what the underlying `-=` leaves in a copy of `value_of(a)`, which
is `value_of(a) - value_of(b)`. -/
theorem meters_sub_is_meters_with_value_two :
    ((value_of (difference.operator_sub
          (type.ctor (int32_t.ofInt 5) : Meters) (type.ctor (int32_t.ofInt 3) : Meters) :
          Meters) = int32_t.ofInt 2 ∧
      (value_of (difference.operator_sub
          (type.ctor (int32_t.ofInt 5) : Meters) (type.ctor (int32_t.ofInt 3) : Meters) :
          Meters)).toInt = 2) ∧
      ordered.operator_gt
        (type.ctor (int32_t.ofInt 5) : Meters) (type.ctor (int32_t.ofInt 3) : Meters) = true) ∧
    (∀ (T Tag : Type) (M : List capability) [has_sub_assign T T] (a b : type T Tag M),
      value_of (difference.operator_sub a b) =
        has_sub_assign.sub_assign (value_of a) (value_of b)) ∧
    (∀ (T Tag : Type) (M : List capability) [Sub T] (a b : type T Tag M),
      value_of (difference.operator_sub a b) = value_of a - value_of b) :=
  ⟨⟨⟨by decide, by decide⟩, by decide⟩, fun _ _ _ _ _ _ => rfl, fun _ _ _ _ _ _ => rfl⟩

/-- Iterating with the operators of a wrapped iterator is iterating with the operators
of the underlying iterator. -/
theorem traverse_wrapped_eq_traverse_underlying {It R Tag : Type} {M : List capability}
    [has_equality It It] [has_increment It] [has_dereference It R]
    (fuel : Nat) (first last : type It Tag M) :
    traverse equality.operator_ne incrementable.operator_pre_inc pointer.operator_deref
        fuel first last =
      traverse (has_equality.ne : It → It → Bool) has_increment.inc has_dereference.deref
        fuel (value_of first) (value_of last) := by
  induction fuel generalizing first with
  | zero => rfl
  | succ n ih =>
    simp only [traverse]
    rw [ih (incrementable.operator_pre_inc first)]
    rfl

/-- Iterating a vector from position `pos` to its end visits the elements from `pos`
on, given more fuel than there are elements left. -/
theorem traverse_vector_from {α : Type} {c : Bool} (elems : List α) (n pos k : Nat)
    (h : pos + n = elems.length) :
    traverse (has_equality.ne : std.vector.basic_iterator c α → _ → Bool)
        has_increment.inc has_dereference.deref (n + k + 1)
        { elems := elems, pos := pos } { elems := elems, pos := elems.length } =
      some (elems.drop pos) := by
  induction n generalizing pos with
  | zero =>
    have hp : pos = elems.length := by omega
    subst hp
    simp [traverse, has_equality.ne]
  | succ n ih =>
    have hlt : pos < elems.length := by omega
    have hne : pos ≠ elems.length := by omega
    have hstep := ih (pos + 1) (by omega)
    have hfuel : n + 1 + k + 1 = (n + k + 1) + 1 := by omega
    have hinc : has_increment.inc
        ({ elems := elems, pos := pos } : std.vector.basic_iterator c α) =
        { elems := elems, pos := pos + 1 } := rfl
    rw [hfuel, traverse, hinc, hstep]
    have hcond : (has_equality.ne
        ({ elems := elems, pos := pos } : std.vector.basic_iterator c α)
        ({ elems := elems, pos := elems.length } : std.vector.basic_iterator c α)) = true := by
      simp [has_equality.ne, hne]
    have hderef : has_dereference.deref
        ({ elems := elems, pos := pos } : std.vector.basic_iterator c α) =
        some (elems.get ⟨pos, hlt⟩) := by
      simp [has_dereference.deref, List.getElem?_eq_getElem hlt]
    rw [if_pos hcond, hderef]
    simp only []
    rw [List.drop_eq_getElem_cons hlt]
    rfl

/-- C8: with `range`, iterating from `begin()` to `end()` (and from `cbegin()` to
`cend()`, and with the const overloads of `begin`/`end`) by `!=`, `++` and `*` of the
wrapped iterators visits what iterating the underlying container with its own
iterators visits, for every amount of fuel; for a vector, with more fuel than
elements, that is exactly the elements of the vector in order. -/
theorem range_iteration_visits_underlying_elements :
    (∀ (C It CIt R R' Tag : Type) (M : List capability)
        [has_begin_end C It] [has_equality It It] [has_increment It] [has_dereference It R]
        [has_const_begin_end C CIt] [has_equality CIt CIt] [has_increment CIt]
        [has_dereference CIt R'] (w : type C Tag M) (fuel : Nat),
      traverse equality.operator_ne incrementable.operator_pre_inc pointer.operator_deref
          fuel (range.begin w) (range.end_ w) =
        traverse (has_equality.ne : It → It → Bool) has_increment.inc has_dereference.deref
          fuel (has_begin_end.begin (value_of w)) (has_begin_end.end_ (value_of w)) ∧
      traverse equality.operator_ne incrementable.operator_pre_inc pointer.operator_deref
          fuel (range.cbegin w) (range.cend w) =
        traverse (has_equality.ne : CIt → CIt → Bool) has_increment.inc
          has_dereference.deref
          fuel (has_const_begin_end.begin (value_of w))
          (has_const_begin_end.end_ (value_of w)) ∧
      traverse equality.operator_ne incrementable.operator_pre_inc pointer.operator_deref
          fuel (range.begin_const w) (range.end_const w) =
        traverse (has_equality.ne : CIt → CIt → Bool) has_increment.inc
          has_dereference.deref
          fuel (has_const_begin_end.begin (value_of w))
          (has_const_begin_end.end_ (value_of w))) ∧
    (∀ (α Tag : Type) (M : List capability) (w : type (std.vector α) Tag M) (k : Nat),
      traverse equality.operator_ne incrementable.operator_pre_inc pointer.operator_deref
          ((value_of w).size + k + 1) (range.begin w) (range.end_ w) =
        some (value_of w).elems ∧
      traverse equality.operator_ne incrementable.operator_pre_inc pointer.operator_deref
          ((value_of w).size + k + 1) (range.cbegin w) (range.cend w) =
        some (value_of w).elems ∧
      traverse equality.operator_ne incrementable.operator_pre_inc pointer.operator_deref
          ((value_of w).size + k + 1) (range.begin_const w) (range.end_const w) =
        some (value_of w).elems) := by
  constructor
  · intro C It CIt R R' Tag M _ _ _ _ _ _ _ _ w fuel
    exact ⟨traverse_wrapped_eq_traverse_underlying fuel _ _,
      traverse_wrapped_eq_traverse_underlying fuel _ _,
      traverse_wrapped_eq_traverse_underlying fuel _ _⟩
  · intro α Tag M w k
    have h := fun c => traverse_vector_from (c := c) (value_of w).elems
      (value_of w).elems.length 0 k (by omega)
    simp only [List.drop_zero] at h
    refine ⟨?_, ?_, ?_⟩
    · rw [traverse_wrapped_eq_traverse_underlying]
      exact h false
    · rw [traverse_wrapped_eq_traverse_underlying]
      exact h true
    · rw [traverse_wrapped_eq_traverse_underlying]
      exact h true

/-- C9: with `indexed`, `w[i]` is `value_of(w)[i]` for every index `i`, through each
of the three overloads of `operator[]`, for `indexed<>` and for `indexed<I>`; a
wrapped index is unwrapped first; for a vector, `w[i]` at a valid position `i` is
the element of the underlying vector at position `i`. -/
theorem indexed_subscript_is_underlying_subscript :
    (∀ (T Tag I J R : Type) (M : List capability) [underlying_type I J]
        [has_subscript T J R] (w : type T Tag M) (i : I),
      (indexed_void.operator_index w i = has_subscript.subscript (value_of w) (impl.access i) ∧
       indexed_void.operator_index_mut w i =
          has_subscript.subscript (value_of w) (impl.access i) ∧
       indexed_void.operator_index_move w i =
          has_subscript.subscript (value_of w) (impl.access i)) ∧
      (indexed.operator_index I w i = has_subscript.subscript (value_of w) (impl.access i) ∧
       indexed.operator_index_mut I w i =
          has_subscript.subscript (value_of w) (impl.access i) ∧
       indexed.operator_index_move I w i =
          has_subscript.subscript (value_of w) (impl.access i))) ∧
    (∀ (T Tag J R : Type) (M : List capability) [has_subscript T J R]
        (w : type T Tag M) (i : J),
      indexed_void.operator_index w i = has_subscript.subscript (value_of w) i ∧
      indexed.operator_index J w i = has_subscript.subscript (value_of w) i) ∧
    (∀ (T Tag J IndexTag R : Type) (M N : List capability) [has_subscript T J R]
        (w : type T Tag M) (i : type J IndexTag N),
      indexed_void.operator_index w i = has_subscript.subscript (value_of w) (value_of i) ∧
      indexed.operator_index (type J IndexTag N) w i =
        has_subscript.subscript (value_of w) (value_of i)) ∧
    (∀ (α Tag : Type) (M : List capability) (w : type (std.vector α) Tag M) (i : Nat),
      indexed_void.operator_index w i = (value_of w).elems[i]? ∧
      indexed.operator_index Nat w i = (value_of w).elems[i]?) :=
  ⟨fun _ _ _ _ _ _ _ _ _ _ => ⟨⟨rfl, rfl, rfl⟩, ⟨rfl, rfl, rfl⟩⟩,
    fun _ _ _ _ _ _ _ _ => ⟨rfl, rfl⟩,
    fun _ _ _ _ _ _ _ _ _ _ => ⟨rfl, rfl⟩,
    fun _ _ _ _ _ => ⟨rfl, rfl⟩⟩

/-- C10: with `indexed`, `w.at(i)` is the result of the underlying container's
`at` at the unwrapped index, through each overload: it fails exactly when the
underlying `at` fails, with the same exception, and otherwise returns the same
element; for a vector it fails with `std::out_of_range` exactly when `i` is not
below the size. -/
theorem indexed_at_is_underlying_at :
    (∀ (T Tag I J E R : Type) (M : List capability) [underlying_type I J]
        [has_at T J E R] (w : type T Tag M) (i : I),
      (indexed_void.at_ w i = has_at.at_ (value_of w) (impl.access i) ∧
       indexed_void.at_mut w i = has_at.at_ (value_of w) (impl.access i) ∧
       indexed_void.at_move w i = has_at.at_ (value_of w) (impl.access i) ∧
       indexed.at_ I w i = has_at.at_ (value_of w) (impl.access i) ∧
       indexed.at_mut I w i = has_at.at_ (value_of w) (impl.access i) ∧
       indexed.at_move I w i = has_at.at_ (value_of w) (impl.access i)) ∧
      (∀ e : E, indexed_void.at_ w i = Except.error e ↔
        has_at.at_ (value_of w) (impl.access i) = Except.error e) ∧
      (∀ x : R, indexed_void.at_ w i = Except.ok x ↔
        has_at.at_ (value_of w) (impl.access i) = Except.ok x)) ∧
    (∀ (α Tag : Type) (M : List capability) (w : type (std.vector α) Tag M) (i : Nat),
      (indexed_void.at_ w i = Except.error std.out_of_range.mk ↔ (value_of w).size ≤ i) ∧
      (∀ x : α, indexed_void.at_ w i = Except.ok x ↔ (value_of w).elems[i]? = some x)) := by
  refine ⟨fun _ _ _ _ _ _ _ _ _ _ _ =>
    ⟨⟨rfl, rfl, rfl, rfl, rfl, rfl⟩, fun _ => Iff.rfl, fun _ => Iff.rfl⟩, ?_⟩
  intro α Tag M w i
  simp only [indexed_void.at_, has_at.at_, impl.access, underlying_type.access,
    std.vector.size]
  by_cases h : i < (value_of w).elems.length
  · simp [h, List.getElem?_eq_getElem h]
  · simp [h, List.getElem?_eq_none (Nat.le_of_not_lt h)]
    omega

/-- The counterexample to C11 as stated: with an fmt library older than version 9
(`FMT_VERSION = 80101`) the header gives fmt no formatter for the ostreamable wrapper
`osso`, so that formatting `osso{3}` does not produce `"os << 3"`. -/
theorem ostreamable_without_formatter_before_fmt_9 :
    fmt.format 80101 (type.ctor (3 : Int) : osso) = none ∧
    fmt.format 80101 (type.ctor (3 : Int) : osso) ≠ some "os << 3" := by
  decide

/-- C11, amended: for `FMT_VERSION >= 90000`, formatting a wrapper that is ostreamable
and not formattable produces the text that the stream output operator of the
underlying value writes; for an older fmt the header provides no formatter for such
a wrapper. -/
theorem ostreamable_formats_as_stream_output (FMT_VERSION : Nat) {T Tag : Type}
    {M : List capability} [fmt.has_formatter T] [has_ostream_insertion T]
    (val : type T Tag M) (hos : is_ostreamable M = true) (hfmt : is_formattable M = false) :
    (90000 ≤ FMT_VERSION →
      fmt.format FMT_VERSION val =
        some (has_ostream_insertion.insert { written := "" } (value_of val)).written) ∧
    (FMT_VERSION < 90000 → fmt.format FMT_VERSION val = none) := by
  constructor
  · intro h
    simp [fmt.format, fmt_formatter, select_formatter, h, hos, hfmt,
      fmt.ostream_formatter.format, ostreamable.operator_shl]
  · intro h
    have h' : ¬ 90000 ≤ FMT_VERSION := by omega
    simp [fmt.format, fmt_formatter, h', hfmt]

/-- C11 at the test `ostreamable is formattable`: `osso{3}` formats as `"os << 3"`. -/
theorem ostreamable_formats_as_stream_output_osso :
    fmt.format 90000 (type.ctor (3 : Int) : osso) = some "os << 3" :=
  (ostreamable_formats_as_stream_output 90000 (type.ctor (3 : Int) : osso) rfl rfl).1
    (by decide)

/-- C12: formatting a wrapper that is formattable produces what the formatter of the
underlying type produces for `value_of(val)`, for every version of fmt and whether
or not the wrapper is also ostreamable. -/
theorem formattable_formats_as_underlying (FMT_VERSION : Nat) {T Tag : Type}
    {M : List capability} [fmt.has_formatter T] [has_ostream_insertion T]
    (val : type T Tag M) (hfmt : is_formattable M = true) :
    fmt.format FMT_VERSION val =
      some (fmt.has_formatter.format (value_of val) { out := "" }).out := by
  by_cases h : 90000 ≤ FMT_VERSION
  · simp [fmt.format, fmt_formatter, select_formatter, h, hfmt, formatter.format]
  · simp [fmt.format, fmt_formatter, h, hfmt, formatter.format]

/-- C12 at the tests `formattable is formattable` and `formattable and ostreamable is
formattable as formattable`: `fmtso{3}` and `fmtosso{3}` format as `"3"`. -/
theorem formattable_formats_as_underlying_tests :
    fmt.format 90000 (type.ctor (3 : Int) : fmtso) = some "3" ∧
    fmt.format 90000 (type.ctor (3 : Int) : fmtosso) = some "3" ∧
    is_ostreamable (type.modifiers (type.ctor (3 : Int) : fmtosso)) = true :=
  ⟨formattable_formats_as_underlying 90000 (type.ctor (3 : Int) : fmtso) rfl,
    formattable_formats_as_underlying 90000 (type.ctor (3 : Int) : fmtosso) rfl, rfl⟩

/-- C13: with `equality_with<Other>` and `ordered_with<Other>`, each operator in each
direction is the comparison of the underlying type applied to `value_of(t)` and the
unwrapped `o`, and symmetric underlying comparisons give symmetric operators; but
`t != o` takes `o` by value, so that it is ill-formed for an `Other` that cannot be
copied (here a wrapper with `unique`), where `o != t`, `t == o` and `o == t` are
defined. -/
theorem typed_comparisons_follow_underlying :
    (∀ (TT OT O Tag : Type) (M : List capability) [underlying_type O OT]
        [has_equality TT OT] [has_equality OT TT] [has_ordering TT OT] [has_ordering OT TT]
        [copy_constructible O] (t : type TT Tag M) (o : O),
      (impl.typed_equality.operator_eq t o =
          has_equality.eq (value_of t) (impl.access o) ∧
       impl.typed_equality.operator_eq_other_first o t =
          has_equality.eq (impl.access o) (value_of t) ∧
       impl.typed_equality.operator_ne_other_first o t =
          has_equality.ne (impl.access o) (value_of t) ∧
       impl.typed_equality.operator_ne t o =
          (if copy_constructible.value O then
            some (has_equality.ne (value_of t) (impl.access o)) else none)) ∧
      (impl.typed_ordering.operator_lt t o = has_ordering.lt (value_of t) (impl.access o) ∧
       impl.typed_ordering.operator_le t o = has_ordering.le (value_of t) (impl.access o) ∧
       impl.typed_ordering.operator_gt t o = has_ordering.gt (value_of t) (impl.access o) ∧
       impl.typed_ordering.operator_ge t o = has_ordering.ge (value_of t) (impl.access o) ∧
       impl.typed_ordering.operator_lt_other_first o t =
          has_ordering.lt (impl.access o) (value_of t) ∧
       impl.typed_ordering.operator_le_other_first o t =
          has_ordering.le (impl.access o) (value_of t) ∧
       impl.typed_ordering.operator_gt_other_first o t =
          has_ordering.gt (impl.access o) (value_of t) ∧
       impl.typed_ordering.operator_ge_other_first o t =
          has_ordering.ge (impl.access o) (value_of t)) ∧
      ((∀ (x : TT) (y : OT), has_equality.eq x y = has_equality.eq y x) →
        impl.typed_equality.operator_eq t o =
          impl.typed_equality.operator_eq_other_first o t) ∧
      ((∀ (x : TT) (y : OT), has_equality.ne x y = has_equality.ne y x) →
        copy_constructible.value O = true →
        impl.typed_equality.operator_ne t o =
          some (impl.typed_equality.operator_ne_other_first o t)) ∧
      ((∀ (x : TT) (y : OT), has_ordering.lt x y = has_ordering.gt y x) →
        impl.typed_ordering.operator_lt t o =
          impl.typed_ordering.operator_gt_other_first o t) ∧
      ((∀ (x : TT) (y : OT), has_ordering.le x y = has_ordering.ge y x) →
        impl.typed_ordering.operator_le t o =
          impl.typed_ordering.operator_ge_other_first o t)) ∧
    (impl.typed_equality.operator_ne
        (type.ctor (1 : Int) :
          type Int tag_a [capability.equality_with [type Int tag_b [capability.unique]]])
        (type.ctor (1 : Int) : type Int tag_b [capability.unique]) = none ∧
     impl.typed_equality.operator_ne_other_first
        (type.ctor (1 : Int) : type Int tag_b [capability.unique])
        (type.ctor (1 : Int) :
          type Int tag_a [capability.equality_with [type Int tag_b [capability.unique]]])
        = false ∧
     impl.typed_equality.operator_eq
        (type.ctor (1 : Int) :
          type Int tag_a [capability.equality_with [type Int tag_b [capability.unique]]])
        (type.ctor (1 : Int) : type Int tag_b [capability.unique]) = true ∧
     impl.typed_equality.operator_eq_other_first
        (type.ctor (1 : Int) : type Int tag_b [capability.unique])
        (type.ctor (1 : Int) :
          type Int tag_a [capability.equality_with [type Int tag_b [capability.unique]]])
        = true) := by
  refine ⟨?_, by decide⟩
  intro TT OT O Tag M _ _ _ _ _ _ t o
  refine ⟨⟨rfl, rfl, rfl, rfl⟩, ⟨rfl, rfl, rfl, rfl, rfl, rfl, rfl, rfl⟩, ?_, ?_, ?_, ?_⟩
  · intro h
    exact h _ _
  · intro h hc
    simp [impl.typed_equality.operator_ne, impl.typed_equality.operator_ne_other_first, hc, h]
  · intro h
    exact h _ _
  · intro h
    exact h _ _

/-- C13 for a wrapper over the integers compared with a raw integer, whose built-in
comparisons are symmetric: `(t == o) = (o == t)`, `(t != o) = (o != t)`,
`(t < o) = (o > t)`, `(t <= o) = (o >= t)`. -/
theorem typed_comparisons_symmetric_int :
    impl.typed_equality.operator_eq
        (type.ctor (1 : Int) : type Int tag_a [capability.equality_with [Int]]) (2 : Int) =
      impl.typed_equality.operator_eq_other_first (2 : Int)
        (type.ctor (1 : Int) : type Int tag_a [capability.equality_with [Int]]) ∧
    impl.typed_equality.operator_ne
        (type.ctor (1 : Int) : type Int tag_a [capability.equality_with [Int]]) (2 : Int) =
      some (impl.typed_equality.operator_ne_other_first (2 : Int)
        (type.ctor (1 : Int) : type Int tag_a [capability.equality_with [Int]])) ∧
    impl.typed_ordering.operator_lt
        (type.ctor (1 : Int) : type Int tag_a [capability.ordered_with [Int]]) (2 : Int) =
      impl.typed_ordering.operator_gt_other_first (2 : Int)
        (type.ctor (1 : Int) : type Int tag_a [capability.ordered_with [Int]]) ∧
    impl.typed_ordering.operator_le
        (type.ctor (1 : Int) : type Int tag_a [capability.ordered_with [Int]]) (2 : Int) =
      impl.typed_ordering.operator_ge_other_first (2 : Int)
        (type.ctor (1 : Int) : type Int tag_a [capability.ordered_with [Int]]) :=
  ⟨(typed_comparisons_follow_underlying.1 Int Int Int tag_a _ _ _).2.2.1
      (fun x y => by simp [has_equality.eq, eq_comm]),
    (typed_comparisons_follow_underlying.1 Int Int Int tag_a _ _ _).2.2.2.1
      (fun x y => by simp [has_equality.ne, ne_comm]) rfl,
    (typed_comparisons_follow_underlying.1 Int Int Int tag_a _ _ _).2.2.2.2.1
      (fun x y => by simp [has_ordering.lt, has_ordering.gt]),
    (typed_comparisons_follow_underlying.1 Int Int Int tag_a _ _ _).2.2.2.2.2
      (fun x y => by simp [has_ordering.le, has_ordering.ge])⟩

/-- C14: with `difference`, `a * s` and `a / s` for a raw scalar `s` are wrapped values
whose underlying values are what `*=` and `/=` of the underlying type leave in a copy
of `value_of(a)`, that is `value_of(a) * s` and `value_of(a) / s`; `a / b` is a raw
value of the underlying type, `value_of(a) / value_of(b)`. -/
theorem difference_scalar_operators_and_ratio :
    (∀ (T Tag : Type) (M : List capability) [has_mul_assign T T] [has_div_assign T T]
        [has_divide T] (a b : type T Tag M) (s : T),
      value_of (difference.operator_mul a s : type T Tag M) =
        has_mul_assign.mul_assign (value_of a) s ∧
      value_of (difference.operator_div a s : type T Tag M) =
        has_div_assign.div_assign (value_of a) s ∧
      (difference.operator_div_type a b : T) = has_divide.div (value_of a) (value_of b)) ∧
    (∀ (T Tag : Type) (M : List capability) [Mul T] [Div T] (a b : type T Tag M) (s : T),
      value_of (difference.operator_mul a s : type T Tag M) = value_of a * s ∧
      value_of (difference.operator_div a s : type T Tag M) = value_of a / s ∧
      (difference.operator_div_type a b : T) = value_of a / value_of b) :=
  ⟨fun _ _ _ _ _ _ _ _ _ => ⟨rfl, rfl, rfl⟩, fun _ _ _ _ _ _ _ _ => ⟨rfl, rfl, rfl⟩⟩

/-- C15: the modifiers that `iterator` grants depend on the iterator category only
(the difference type only fills the argument of `affine_point`): forward grants
`pointer`, `equality`, `incrementable`; bidirectional grants those and
`decrementable`, which forward does not grant; random access grants those of
bidirectional and `affine_point`, `indexed`, `ordered`, none of which bidirectional
grants. -/
theorem iterator_modifiers_increase_with_category (D D' : Type) :
    (∀ category : iterator_category,
      (iterator.modifier D category).map capability.without_arguments =
        (iterator.modifier D' category).map capability.without_arguments) ∧
    iterator.modifier D iterator_category.forward =
      [capability.pointer, capability.equality, capability.incrementable] ∧
    iterator.modifier D iterator_category.bidirectional =
      iterator.modifier D iterator_category.forward ++ [capability.decrementable] ∧
    iterator.modifier D iterator_category.random_access =
      iterator.modifier D iterator_category.bidirectional ++
        [capability.affine_point (some D), capability.indexed none, capability.ordered] ∧
    ((∀ c ∈ iterator.modifier D iterator_category.forward,
        c ∈ iterator.modifier D iterator_category.bidirectional) ∧
      capability.decrementable ∉ iterator.modifier D iterator_category.forward) ∧
    ((∀ c ∈ iterator.modifier D iterator_category.bidirectional,
        c ∈ iterator.modifier D iterator_category.random_access) ∧
      capability.affine_point (some D) ∉
        iterator.modifier D iterator_category.bidirectional ∧
      capability.indexed none ∉ iterator.modifier D iterator_category.bidirectional ∧
      capability.ordered ∉ iterator.modifier D iterator_category.bidirectional) := by
  refine ⟨?_, rfl, rfl, rfl, ⟨?_, ?_⟩, ⟨?_, ?_, ?_, ?_⟩⟩
  · intro category
    cases category <;> rfl
  · intro c hc
    simp only [iterator.modifier] at hc ⊢
    exact List.mem_append_left _ hc
  · simp [iterator.modifier, iterator.primary_modifier]
  · intro c hc
    simp only [iterator.modifier] at hc ⊢
    exact List.mem_append_left _ hc
  · simp [iterator.modifier, iterator.primary_modifier]
  · simp [iterator.modifier, iterator.primary_modifier]
  · simp [iterator.modifier, iterator.primary_modifier]

/-- C16: with `pointer`, `t == nullptr` and `nullptr == t` are
`value_of(t) == nullptr`, `t != nullptr` and `nullptr != t` are
`value_of(t) != nullptr`, `*t` is `*value_of(t)` and `t->` is the address of that
object; for a raw pointer the `!=` comparisons are the negations of the `==`
comparisons, and `t->` of a non-null pointer is the pointer itself. -/
theorem pointer_operators_follow_underlying :
    (∀ (T Tag R A : Type) (M : List capability) [has_null_comparison T]
        [has_dereference T R] [has_address_of R A] (t : type T Tag M),
      pointer.operator_eq_null t = has_null_comparison.eq_null (value_of t) ∧
      pointer.operator_eq_null_first t = has_null_comparison.eq_null (value_of t) ∧
      pointer.operator_ne_null t = has_null_comparison.ne_null (value_of t) ∧
      pointer.operator_ne_null_first t = has_null_comparison.ne_null (value_of t) ∧
      pointer.operator_deref t = has_dereference.deref (value_of t) ∧
      pointer.operator_arrow t =
        (has_dereference.deref (value_of t)).map has_address_of.address_of) ∧
    (∀ (R Tag : Type) (M : List capability) (t : type (raw_pointer R) Tag M),
      pointer.operator_ne_null t = !pointer.operator_eq_null t ∧
      pointer.operator_ne_null_first t = !pointer.operator_eq_null_first t ∧
      (pointer.operator_ne_null t = true → pointer.operator_arrow t = some (value_of t)) ∧
      (pointer.operator_eq_null t = true → pointer.operator_deref t = none)) := by
  refine ⟨fun _ _ _ _ _ _ _ _ _ => ⟨rfl, rfl, rfl, rfl, rfl, rfl⟩, ?_⟩
  intro R Tag M t
  cases t with
  | mk p =>
    cases p <;>
      simp [pointer.operator_ne_null, pointer.operator_eq_null,
        pointer.operator_ne_null_first, pointer.operator_eq_null_first,
        pointer.operator_arrow, pointer.operator_deref, has_null_comparison.ne_null,
        has_null_comparison.eq_null, has_dereference.deref, has_address_of.address_of,
        value_of]

/-- C16 at a pointer to the object `42` at address `100`. -/
theorem pointer_operators_follow_underlying_at_object :
    pointer.operator_arrow
        (type.ctor (raw_pointer.points_to { address := 100, object := (42 : Int) }) :
          type (raw_pointer Int) tag_a [capability.pointer]) =
      some (raw_pointer.points_to { address := 100, object := (42 : Int) }) :=
  (pointer_operators_follow_underlying.2 Int tag_a [capability.pointer]
    (type.ctor (raw_pointer.points_to { address := 100, object := (42 : Int) }))).2.2.1 rfl

/-- C17: `swap(a, b)` leaves in `a` the former underlying value of `b` and in `b` the
former underlying value of `a`; swapping twice restores both. -/
theorem swap_exchanges_underlying_values {T Tag : Type} {M : List capability}
    (a b : type T Tag M) :
    value_of (swap a b).1 = value_of b ∧
    value_of (swap a b).2 = value_of a ∧
    swap (swap a b).1 (swap a b).2 = (a, b) :=
  ⟨rfl, rfl, rfl⟩

/-- C19: with `hashable`, `std::hash` of a wrapped value is the hash of the underlying
type at `value_of(w)`; two wrapped values with equal underlying values have equal
hashes. -/
theorem hash_is_underlying_hash {T Tag : Type} {M : List capability} [has_hash T]
    (w : type T Tag M) (h : is_hashable M = true) :
    std.hash.operator_call w = some (has_hash.hash (value_of w)) ∧
    ∀ w' : type T Tag M, value_of w = value_of w' →
      std.hash.operator_call w = std.hash.operator_call w' := by
  constructor
  · simp [std.hash.operator_call, h]
  · intro w' hw
    simp [std.hash.operator_call, h, hw]

/-- C19 at a hashable wrapper over the 32-bit integers holding `7`. -/
theorem hash_is_underlying_hash_int32 :
    std.hash.operator_call
        (type.ctor (int32_t.ofInt 7) : type int32_t tag_a [capability.hashable]) =
      some 7 :=
  (hash_is_underlying_hash
    (type.ctor (int32_t.ofInt 7) : type int32_t tag_a [capability.hashable]) rfl).1

/-- A compound operator of `arithmetic` stores its result in the object at `lh` and
returns `lh`. -/
theorem arithmetic.compound_at_eq {T Tag : Type} {M : List capability}
    (assign : T → T → T) (σ : List (type T Tag M)) (lh rh : Nat) (x y : type T Tag M)
    (hx : σ[lh]? = some x) (hy : σ[rh]? = some y) :
    arithmetic.compound_at assign σ lh rh =
      some (σ.set lh { val := assign (value_of x) (value_of y) }, lh) := by
  simp [arithmetic.compound_at, hx, hy, value_of_mut, value_of]

/-- A binary operator of `arithmetic` leaves the store of its caller as it was and
returns what the compound operator leaves in a copy of the object at `a`. -/
theorem arithmetic.binary_at_eq {T Tag : Type} {M : List capability}
    (assign : T → T → T) (σ : List (type T Tag M)) (a b : Nat) (x y : type T Tag M)
    (hx : σ[a]? = some x) (hy : σ[b]? = some y) :
    arithmetic.binary_at assign σ a b =
      some (σ, { val := assign (value_of x) (value_of y) }) := by
  have hb : b < σ.length := by
    rcases List.getElem?_eq_some_iff.1 hy with ⟨h, _⟩
    exact h
  have hy' : (σ ++ [x])[b]? = some y := by
    rw [List.getElem?_append_left hb]
    exact hy
  have hx' : (σ ++ [x])[σ.length]? = some x := by
    simp
  simp only [arithmetic.binary_at, hx]
  rw [arithmetic.compound_at_eq assign (σ ++ [x]) σ.length b x y hx' hy']
  simp

/-- C20: with `arithmetic`, the binary operators and the unary minus leave every
object of the caller, both operands included, unchanged and return the value of the
operation; a compound operator changes the object of its left operand only (every
other object, the right operand included when it is another object, is unchanged) and
returns the reference to its left operand. -/
theorem arithmetic_operators_frame {T Tag : Type} {M : List capability}
    [has_add_assign T T] [has_sub_assign T T] [has_mul_assign T T] [has_div_assign T T]
    [has_negate T] (σ : List (type T Tag M)) (a b : Nat) (x y : type T Tag M)
    (ha : σ[a]? = some x) (hb : σ[b]? = some y) :
    (arithmetic.operator_add_at σ a b = some (σ, arithmetic.operator_add x y) ∧
     arithmetic.operator_sub_at σ a b = some (σ, arithmetic.operator_sub x y) ∧
     arithmetic.operator_mul_at σ a b = some (σ, arithmetic.operator_mul x y) ∧
     arithmetic.operator_div_at σ a b = some (σ, arithmetic.operator_div x y) ∧
     arithmetic.operator_neg_at σ a = some (σ, arithmetic.operator_neg x)) ∧
    (arithmetic.operator_add_assign_at σ a b =
        some (σ.set a (arithmetic.operator_add_assign x y), a) ∧
     arithmetic.operator_sub_assign_at σ a b =
        some (σ.set a (arithmetic.operator_sub_assign x y), a) ∧
     arithmetic.operator_mul_assign_at σ a b =
        some (σ.set a (arithmetic.operator_mul_assign x y), a) ∧
     arithmetic.operator_div_assign_at σ a b =
        some (σ.set a (arithmetic.operator_div_assign x y), a)) ∧
    (∀ w : type T Tag M,
      (σ.set a w)[a]? = some w ∧
      (σ.set a w).length = σ.length ∧
      (∀ l : Nat, l ≠ a → (σ.set a w)[l]? = σ[l]?) ∧
      (b ≠ a → (σ.set a w)[b]? = some y)) := by
  have hlen : a < σ.length := (List.getElem?_eq_some_iff.1 ha).1
  refine ⟨⟨?_, ?_, ?_, ?_, ?_⟩, ⟨?_, ?_, ?_, ?_⟩, ?_⟩
  · exact arithmetic.binary_at_eq _ σ a b x y ha hb
  · exact arithmetic.binary_at_eq _ σ a b x y ha hb
  · exact arithmetic.binary_at_eq _ σ a b x y ha hb
  · exact arithmetic.binary_at_eq _ σ a b x y ha hb
  · simp [arithmetic.operator_neg_at, ha]
  · exact arithmetic.compound_at_eq _ σ a b x y ha hb
  · exact arithmetic.compound_at_eq _ σ a b x y ha hb
  · exact arithmetic.compound_at_eq _ σ a b x y ha hb
  · exact arithmetic.compound_at_eq _ σ a b x y ha hb
  · intro w
    refine ⟨?_, ?_, ?_, ?_⟩
    · simp [hlen]
    · simp
    · intro l hl
      exact List.getElem?_set_ne (Ne.symm hl)
    · intro hne
      rw [List.getElem?_set_ne (Ne.symm hne)]
      exact hb

/-- C20 for three objects holding `3`, `4` and `10`: `a += b` on the first two leaves
`7`, `4`, `10` and returns the first; `a + b` leaves all three and returns `7`. -/
theorem arithmetic_operators_frame_example :
    (arithmetic.operator_add_assign_at
        ([type.ctor (3 : Int), type.ctor (4 : Int), type.ctor (10 : Int)] :
          List (type Int tag_a [capability.arithmetic])) 0 1 =
      some ([type.ctor (7 : Int), type.ctor (4 : Int), type.ctor (10 : Int)], 0)) ∧
    (arithmetic.operator_add_at
        ([type.ctor (3 : Int), type.ctor (4 : Int), type.ctor (10 : Int)] :
          List (type Int tag_a [capability.arithmetic])) 0 1 =
      some ([type.ctor (3 : Int), type.ctor (4 : Int), type.ctor (10 : Int)],
        type.ctor (7 : Int))) :=
  ⟨(arithmetic_operators_frame
      ([type.ctor (3 : Int), type.ctor (4 : Int), type.ctor (10 : Int)] :
        List (type Int tag_a [capability.arithmetic])) 0 1
      (type.ctor (3 : Int)) (type.ctor (4 : Int)) rfl rfl).2.1.1,
    (arithmetic_operators_frame
      ([type.ctor (3 : Int), type.ctor (4 : Int), type.ctor (10 : Int)] :
        List (type Int tag_a [capability.arithmetic])) 0 1
      (type.ctor (3 : Int)) (type.ctor (4 : Int)) rfl rfl).1.1⟩

/-- C21: with `difference`, the scalar product with the scalar on the left, `s * d`,
equals the one with the scalar on the right, `d * s`: both are what `d *= s` leaves in
a copy of `d`, with underlying value `value_of(d) * s`; for a multiplication that
does not commute (composition of affine maps) that is not `s * value_of(d)`. -/
theorem difference_scalar_product_sides_agree :
    (∀ (T Tag : Type) (M : List capability) [has_mul_assign T T] (d : type T Tag M) (s : T),
      difference.operator_mul_scalar_first s d = difference.operator_mul d s ∧
      difference.operator_mul_scalar_first s d =
        (let copy := d; difference.operator_mul_assign copy s) ∧
      value_of (difference.operator_mul_scalar_first s d) =
        has_mul_assign.mul_assign (value_of d) s ∧
      value_of (difference.operator_mul d s) = has_mul_assign.mul_assign (value_of d) s) ∧
    (∀ (T Tag : Type) (M : List capability) [Mul T] (d : type T Tag M) (s : T),
      value_of (difference.operator_mul_scalar_first s d) = value_of d * s ∧
      value_of (difference.operator_mul d s) = value_of d * s) ∧
    (value_of (difference.operator_mul_scalar_first
        ({ scale := 2, shift := 0 } : affine_map)
        (type.ctor ({ scale := 1, shift := 1 } : affine_map) :
          type affine_map tag_a [capability.difference])) =
        ({ scale := 1, shift := 1 } : affine_map) * { scale := 2, shift := 0 } ∧
      value_of (difference.operator_mul_scalar_first
        ({ scale := 2, shift := 0 } : affine_map)
        (type.ctor ({ scale := 1, shift := 1 } : affine_map) :
          type affine_map tag_a [capability.difference])) ≠
        ({ scale := 2, shift := 0 } : affine_map) * { scale := 1, shift := 1 }) := by
  refine ⟨fun _ _ _ _ _ _ => ⟨rfl, rfl, rfl, rfl⟩, fun _ _ _ _ _ _ => ⟨rfl, rfl⟩, rfl, ?_⟩
  decide

end strong
